import Mathlib

/-!
# InstallPlan approver: the reconciler and its decision logic

A shallow embedding of `internal/controller/installplanapprover_controller.go`
and of the status type of `api/v1alpha1/installplanapprover_types.go`.

Modelling conventions.

* Go strings are Lean strings.  `len` and the slice `str[:n]` are taken over
  characters; on well-formed UTF-8 text a byte prefix and a character prefix
  are the same thing, so the prefix test is unchanged.
* `int32` is an integer together with its range; arithmetic wraps around
  (`wrapInt32`), as Go's does.
* The Kubernetes client is an external collaborator.  Its answers are the
  fields of `Client`: every call is answered as a function of its arguments.
  Each call the code makes is recorded, in order, in a list of `Call`s.
* An unstructured object is represented by what the accessors used by the
  code return on it (`NestedBool`, `NestedStringSlice`, `NestedString`,
  `GetName`, `GetOwnerReferences`, `SetNestedField`).
* Logging is not modelled.
-/

namespace Controller

/-! ## Machine integers -/

/-- Two's-complement wrap-around of an integer to 32 bits. -/
def wrapInt32 (x : Int) : Int := (x + 2147483648) % 4294967296 - 2147483648

/-- Go `int32`. -/
def int32 : Type := { x : Int // -2147483648 ≤ x ∧ x ≤ 2147483647 }

instance : DecidableEq int32 := fun a b =>
  decidable_of_iff (a.val = b.val) Subtype.ext_iff.symm

/-- Conversion `int32(x)` of an integer, wrapping around. -/
def int32.ofInt (x : Int) : int32 :=
  ⟨wrapInt32 x, by unfold wrapInt32; omega⟩

/-- Go `+` on `int32`. -/
def int32.add (a b : int32) : int32 := int32.ofInt (a.val + b.val)

instance : Add int32 := ⟨int32.add⟩

/-- Go `time.Duration`, in nanoseconds. -/
abbrev Duration := Int

/-- Go `time.Minute`. -/
def Minute : Duration := 60000000000

/-- A `metav1.Time` value. -/
abbrev Time := Nat

/-! ## Data model -/

/-- Errors of the API machinery, as far as the code tells them apart:
`errors.IsNotFound`, `runtime.IsNotRegisteredError`, anything else. -/
inductive ApiError where
  | notFound
  | notRegistered
  | other (msg : String)
deriving DecidableEq, Repr

/-- What `unstructured.NestedBool`, `NestedString` and `NestedStringSlice`
return, `(value, found, err)`: the field is absent (`found = false`, no
error), present with a value of the right type, or present with a value of
another type (`err != nil`). -/
inductive NestedResult (α : Type) where
  | absent
  | found (v : α)
  | typeError
deriving DecidableEq, Repr

/-- The value Go code gets when it drops `found` and `err`: the zero value
unless the field was read. -/
def NestedResult.valueOr {α : Type} (zero : α) : NestedResult α → α
  | .found v => v
  | _ => zero

/-- A `metav1.OwnerReference`, as far as the code reads it. -/
structure OwnerReference where
  Kind : String
  Name : String
deriving DecidableEq, Repr

/-- An `InstallPlan` as an unstructured object, given by what the accessors the
code uses return on it. -/
structure InstallPlan where
  /-- `item.GetName()` -/
  name : String
  /-- `unstructured.NestedBool(item.Object, "spec", "approved")` -/
  approved : NestedResult Bool
  /-- `unstructured.NestedStringSlice(item.Object, "spec", "clusterServiceVersionNames")` -/
  clusterServiceVersionNames : NestedResult (List String)
  /-- `item.GetOwnerReferences()` -/
  ownerReferences : List OwnerReference
  /-- `unstructured.SetNestedField(item.Object, true, "spec", "approved")` returns an error. -/
  setApprovedErr : Bool
deriving DecidableEq, Repr

/-- A `Subscription` as an unstructured object:
`unstructured.NestedString(subscription.Object, "spec", "startingCSV")`. -/
structure Subscription where
  startingCSV : NestedResult String
deriving DecidableEq, Repr

/-- `InstallPlanApproverSpec` -/
structure InstallPlanApproverSpec where
  TargetNamespaces : List String
  AutoApprove : Bool
  OperatorNames : List String
deriving DecidableEq

/-- `InstallPlanApproverStatus` -/
structure InstallPlanApproverStatus where
  ApprovedCount : int32
  LastApprovedPlan : String
  LastApprovedTime : Option Time
deriving DecidableEq

/-- `InstallPlanApprover` -/
structure InstallPlanApprover where
  Spec : InstallPlanApproverSpec
  Status : InstallPlanApproverStatus
deriving DecidableEq

/-- `types.NamespacedName` -/
structure NamespacedName where
  Namespace : String
  Name : String
deriving DecidableEq, Repr

/-- A call made on the client, with the answer where a claim needs it. -/
inductive Call where
  | getApprover (req : NamespacedName)
  | listNamespaces
  | listInstallPlans (ns : String)
  | getSubscription (ns : String) (name : String)
  | updateInstallPlan (ns : String) (plan : InstallPlan) (ok : Bool)
  | updateStatus (approver : InstallPlanApprover) (ok : Bool)
deriving DecidableEq

/-- The client (`client.Client`) and the clock, as oracles. -/
structure Client where
  /-- `r.Get(ctx, req.NamespacedName, approver)` -/
  getApprover : NamespacedName → Except ApiError InstallPlanApprover
  /-- `r.List(ctx, namespaceList)`: the names of the namespaces -/
  listNamespaces : Except ApiError (List String)
  /-- `r.List(ctx, installPlanList, listOptions)` in a namespace -/
  listInstallPlans : String → Except ApiError (List InstallPlan)
  /-- `r.Get(ctx, subscriptionKey, subscription)` by namespace and name -/
  getSubscription : String → String → Except ApiError Subscription
  /-- `r.Update(ctx, &item)` in a namespace: the error, if any -/
  updateInstallPlan : String → InstallPlan → Option ApiError
  /-- `r.Status().Update(ctx, approver)`: the error, if any -/
  updateStatus : InstallPlanApprover → Option ApiError
  /-- `metav1.Now()` at the approval of the named plan of a namespace -/
  now : String → String → Time

/-! ## The controller -/

/-- `containsSubstring`: `len(str) >= len(substr) && str[:len(substr)] == substr`. -/
def containsSubstring (str substr : String) : Bool :=
  decide (str.length ≥ substr.length) && (String.mk (str.data.take substr.length) == substr)

/-- `isOperatorAllowed` -/
def isOperatorAllowed (csvNames : List String) (allowedNames : List String) : Bool :=
  if allowedNames.length = 0 then true
  else csvNames.any fun csvName =>
    allowedNames.any fun allowed => csvName == allowed || containsSubstring csvName allowed

/-- The loop over `ownerRefs` in `matchesSubscriptionVersion`: the name of the
first owner of kind `Subscription`, the empty string when there is none. -/
def subscriptionOwnerName : List OwnerReference → String
  | [] => ""
  | owner :: rest =>
    if owner.Kind = "Subscription" then owner.Name else subscriptionOwnerName rest

/-- `matchesSubscriptionVersion`: its result and the client calls it made. -/
def matchesSubscriptionVersion (c : Client) (installPlan : InstallPlan) (ns : String) :
    Bool × List Call :=
  match installPlan.clusterServiceVersionNames with
  | .found (installPlanCSV :: _) =>
    let subscriptionName := subscriptionOwnerName installPlan.ownerReferences
    if subscriptionName = "" then (true, [])
    else
      match c.getSubscription ns subscriptionName with
      | .error _ => (true, [Call.getSubscription ns subscriptionName])
      | .ok subscription =>
        match subscription.startingCSV with
        | .found startingCSV =>
          if startingCSV = "" then (true, [Call.getSubscription ns subscriptionName])
          else if installPlanCSV = startingCSV then
            (true, [Call.getSubscription ns subscriptionName])
          else (false, [Call.getSubscription ns subscriptionName])
        | _ => (true, [Call.getSubscription ns subscriptionName])
  | _ => (true, [])

/-- The outcomes of the policy evaluator (spec §2, §4.1). -/
inductive Decision where
  | AlreadyApproved
  | NotAllowed
  | VersionMismatch
  | Approve
deriving DecidableEq, Repr

/-- The exit the body of the loop of `processNamespace` takes on one item, before
any mutation: the approved field cannot be read (`continue` after the error),
or one of the four decisions. -/
inductive ItemOutcome where
  | fieldError
  | decided (d : Decision)
deriving DecidableEq, Repr

/-- The checks of the loop body of `processNamespace`, in the order of the
source, with the client calls they made. -/
def itemOutcome (c : Client) (ns : String) (operatorNames : List String)
    (item : InstallPlan) : ItemOutcome × List Call :=
  match item.approved with
  | .typeError => (.fieldError, [])
  | .found true => (.decided .AlreadyApproved, [])
  | _ =>
    if operatorNames.length > 0 &&
        !isOperatorAllowed (item.clusterServiceVersionNames.valueOr []) operatorNames then
      (.decided .NotAllowed, [])
    else
      let m := matchesSubscriptionVersion c item ns
      if !m.1 then (.decided .VersionMismatch, m.2) else (.decided .Approve, m.2)

/-- The values `processNamespace` returns, and the client calls it made. -/
structure NamespaceResult where
  approvedCount : int32
  lastApprovedPlan : String
  lastApprovedTime : Option Time
  foundNonMatching : Bool
  err : Option ApiError
  calls : List Call
deriving DecidableEq

/-- One iteration of the loop of `processNamespace` over `installPlanList.Items`. -/
def processInstallPlan (c : Client) (ns : String) (operatorNames : List String)
    (acc : NamespaceResult) (item : InstallPlan) : NamespaceResult :=
  match itemOutcome c ns operatorNames item with
  | (.fieldError, _) => acc
  | (.decided .AlreadyApproved, _) => acc
  | (.decided .NotAllowed, _) => acc
  | (.decided .VersionMismatch, calls) =>
    { acc with foundNonMatching := true, calls := acc.calls ++ calls }
  | (.decided .Approve, calls) =>
    if item.setApprovedErr then { acc with calls := acc.calls ++ calls }
    else
      let item := { item with approved := .found true }
      match c.updateInstallPlan ns item with
      | some _ =>
        { acc with calls := acc.calls ++ calls ++ [Call.updateInstallPlan ns item false] }
      | none =>
        { acc with
          approvedCount := acc.approvedCount + int32.ofInt 1
          lastApprovedPlan := item.name
          lastApprovedTime := some (c.now ns item.name)
          calls := acc.calls ++ calls ++ [Call.updateInstallPlan ns item true] }

/-- The loop of `processNamespace`, from a given state of its variables. -/
def processInstallPlans (c : Client) (ns : String) (operatorNames : List String)
    (acc : NamespaceResult) (items : List InstallPlan) : NamespaceResult :=
  items.foldl (processInstallPlan c ns operatorNames) acc

/-- `processNamespace` -/
def processNamespace (c : Client) (ns : String) (operatorNames : List String) :
    NamespaceResult :=
  match c.listInstallPlans ns with
  | .error e =>
    if e = ApiError.notFound ∨ e = ApiError.notRegistered then
      ⟨int32.ofInt 0, "", none, false, none, [Call.listInstallPlans ns]⟩
    else ⟨int32.ofInt 0, "", none, false, some e, [Call.listInstallPlans ns]⟩
  | .ok items =>
    processInstallPlans c ns operatorNames
      ⟨int32.ofInt 0, "", none, false, none, [Call.listInstallPlans ns]⟩ items

/-- The variables of the loop of `Reconcile` over the namespaces, and the calls
made so far. -/
structure PassState where
  approvedCount : int32
  lastApprovedPlan : String
  lastApprovedTime : Option Time
  foundNonMatchingPlans : Bool
  calls : List Call
deriving DecidableEq

/-- One iteration of the loop of `Reconcile` over the namespaces. -/
def reconcileNamespace (c : Client) (operatorNames : List String) (st : PassState)
    (ns : String) : PassState :=
  let r := processNamespace c ns operatorNames
  match r.err with
  | some _ => { st with calls := st.calls ++ r.calls }
  | none =>
    { approvedCount := st.approvedCount + r.approvedCount
      lastApprovedPlan :=
        if r.lastApprovedPlan ≠ "" then ns ++ "/" ++ r.lastApprovedPlan
        else st.lastApprovedPlan
      lastApprovedTime :=
        if r.lastApprovedPlan ≠ "" then r.lastApprovedTime else st.lastApprovedTime
      foundNonMatchingPlans := if r.foundNonMatching then true else st.foundNonMatchingPlans
      calls := st.calls ++ r.calls }

/-- The loop of `Reconcile` over the namespaces, from a given state. -/
def reconcileNamespaces (c : Client) (operatorNames : List String) (st : PassState)
    (namespaces : List String) : PassState :=
  namespaces.foldl (reconcileNamespace c operatorNames) st

/-- The namespaces of a pass: `Spec.TargetNamespaces`, or every namespace of
the cluster when that list is empty; with the calls made. -/
def resolveNamespaces (c : Client) (approver : InstallPlanApprover) :
    Except ApiError (List String) × List Call :=
  if approver.Spec.TargetNamespaces.length = 0 then
    match c.listNamespaces with
    | .error e => (.error e, [Call.listNamespaces])
    | .ok names => (.ok (approver.Spec.TargetNamespaces ++ names), [Call.listNamespaces])
  else (.ok approver.Spec.TargetNamespaces, [])

/-- `ctrl.Result` -/
structure Result where
  Requeue : Bool := false
  RequeueAfter : Duration := 0
deriving DecidableEq, Repr

/-- What a call of `Reconcile` returns and leaves behind: the result, the
error, the status of the policy object as stored after the call (none when no
policy object was read), and the client calls made. -/
structure ReconcileOutcome where
  result : Result
  err : Option ApiError
  status : Option InstallPlanApproverStatus
  calls : List Call
deriving DecidableEq

/-- `Reconcile` -/
def Reconcile (c : Client) (req : NamespacedName) : ReconcileOutcome :=
  match c.getApprover req with
  | .error e =>
    if e = ApiError.notFound then ⟨{}, none, none, [Call.getApprover req]⟩
    else ⟨{}, some e, none, [Call.getApprover req]⟩
  | .ok approver =>
    if !approver.Spec.AutoApprove then
      ⟨{}, none, some approver.Status, [Call.getApprover req]⟩
    else
      match resolveNamespaces c approver with
      | (.error e, calls) => ⟨{}, some e, some approver.Status, Call.getApprover req :: calls⟩
      | (.ok namespaces, calls) =>
        let st := reconcileNamespaces c approver.Spec.OperatorNames
          ⟨int32.ofInt 0, "", none, false, Call.getApprover req :: calls⟩ namespaces
        if st.approvedCount.val > 0 then
          let updated : InstallPlanApprover :=
            { approver with
              Status :=
                { ApprovedCount := approver.Status.ApprovedCount + st.approvedCount
                  LastApprovedPlan := st.lastApprovedPlan
                  LastApprovedTime := st.lastApprovedTime } }
          match c.updateStatus updated with
          | some e =>
            ⟨{}, some e, some approver.Status, st.calls ++ [Call.updateStatus updated false]⟩
          | none =>
            ⟨{}, none, some updated.Status, st.calls ++ [Call.updateStatus updated true]⟩
        else
          let requeueAfter : Duration :=
            if st.foundNonMatchingPlans then 3 * Minute else 1 * Minute
          ⟨{ RequeueAfter := requeueAfter }, none, some approver.Status, st.calls⟩

/-! ## Observations on a run, and the evaluator of the specification -/

/-- A call is an approval when it is an update of an install plan that succeeded. -/
def Call.isApproval : Call → Bool
  | .updateInstallPlan _ _ true => true
  | _ => false

/-- The number of approvals among the calls of a run. -/
def approvals (calls : List Call) : Nat := calls.countP Call.isApproval

/-- The last approval seen, after one more call. -/
def noteApproval (last : Option (String × String)) (call : Call) : Option (String × String) :=
  match call with
  | .updateInstallPlan ns plan true => some (ns, plan.name)
  | _ => last

/-- The namespace and name of the last plan approved among `calls`, `init` when
there is none. -/
def lastApprovalFrom (init : Option (String × String)) (calls : List Call) :
    Option (String × String) :=
  calls.foldl noteApproval init

/-- The namespace and name of the last plan approved in a run. -/
def lastApproval (calls : List Call) : Option (String × String) :=
  lastApprovalFrom none calls

/-- The client `c` with the listing of the install plans of `ns` set to `items`. -/
def withListing (c : Client) (ns : String) (items : List InstallPlan) : Client :=
  { c with
    listInstallPlans := fun n => if n = ns then .ok items else c.listInstallPlans n }

/-- The `csvNames` of a request as the specification sees them: the sequence
read from the object, empty when there is none to read. -/
def csvNames (request : InstallPlan) : List String :=
  request.clusterServiceVersionNames.valueOr []

/-- A CSV name matches an allow-list entry when it equals it or has it as a
prefix (spec §4.1 step 2, §9). -/
def matchesEntry (csvName entry : String) : Bool :=
  csvName == entry || entry.data.isPrefixOf csvName.data

/-- The evaluator of the specification (§4.1), written from its words:
`evaluate(request, ownerSubscription, allowList)`, short-circuiting, where the
owning Subscription is looked up by the name of the first owner reference of
kind `Subscription`. -/
def evaluate (request : InstallPlan) (lookup : String → Except ApiError Subscription)
    (allowList : List String) : Decision :=
  if request.approved = .found true then .AlreadyApproved
  else if allowList ≠ [] ∧
      ¬ (csvNames request).any (fun n => allowList.any fun entry => matchesEntry n entry) then
    .NotAllowed
  else
    match csvNames request with
    | [] => .Approve
    | primary :: _ =>
      match request.ownerReferences.find? (fun owner => owner.Kind == "Subscription") with
      | none => .Approve
      | some owner =>
        match lookup owner.Name with
        | .error _ => .Approve
        | .ok subscription =>
          match subscription.startingCSV with
          | .found startingCSV =>
            if startingCSV = "" then .Approve
            else if startingCSV = primary then .Approve
            else .VersionMismatch
          | _ => .Approve

/-! ## The effect of one iteration, as a value -/

/-- What one iteration of the loop of `processNamespace` adds to the loop's
variables: whether the item was approved, whether it set the mismatch flag,
and the client calls made for it. -/
structure ItemEffect where
  approve : Bool
  mismatch : Bool
  calls : List Call
deriving DecidableEq

/-- The effect of the iteration on `item`, read off `processInstallPlan`. -/
def itemEffect (c : Client) (ns : String) (operatorNames : List String)
    (item : InstallPlan) : ItemEffect :=
  match itemOutcome c ns operatorNames item with
  | (.fieldError, _) => ⟨false, false, []⟩
  | (.decided .AlreadyApproved, _) => ⟨false, false, []⟩
  | (.decided .NotAllowed, _) => ⟨false, false, []⟩
  | (.decided .VersionMismatch, calls) => ⟨false, true, calls⟩
  | (.decided .Approve, calls) =>
    if item.setApprovedErr then ⟨false, false, calls⟩
    else
      match c.updateInstallPlan ns { item with approved := .found true } with
      | some _ =>
        ⟨false, false,
          calls ++ [Call.updateInstallPlan ns { item with approved := .found true } false]⟩
      | none =>
        ⟨true, false,
          calls ++ [Call.updateInstallPlan ns { item with approved := .found true } true]⟩

/-- The loop variables after an iteration of effect `e` on `item`. -/
def applyEffect (c : Client) (ns : String) (item : InstallPlan) (e : ItemEffect)
    (acc : NamespaceResult) : NamespaceResult :=
  { approvedCount := if e.approve then acc.approvedCount + int32.ofInt 1 else acc.approvedCount
    lastApprovedPlan := if e.approve then item.name else acc.lastApprovedPlan
    lastApprovedTime := if e.approve then some (c.now ns item.name) else acc.lastApprovedTime
    foundNonMatching := if e.mismatch then true else acc.foundNonMatching
    err := acc.err
    calls := acc.calls ++ e.calls }

/-! ## Example cluster states -/

/-- A client that answers every policy lookup with `policy`, lists the
namespace `operators` only, lists `plans` in every namespace, answers every
Subscription lookup with `subscription`, refuses the update of the install
plans named in `refused` and accepts every other, and stores every status. -/
def exampleClient (policy : InstallPlanApprover) (plans : List InstallPlan)
    (subscription : Except ApiError Subscription) (refused : List String) : Client where
  getApprover := fun _ => .ok policy
  listNamespaces := .ok ["operators"]
  listInstallPlans := fun _ => .ok plans
  getSubscription := fun _ _ => subscription
  updateInstallPlan := fun _ plan =>
    if plan.name ∈ refused then some (.other "conflict") else none
  updateStatus := fun _ => none
  now := fun _ _ => 1700000000

/-- A policy with the given switch, allow-list and previous count, for the
namespace `operators`. -/
def examplePolicy (autoApprove : Bool) (operatorNames : List String) (previous : Int) :
    InstallPlanApprover :=
  { Spec := { TargetNamespaces := ["operators"], AutoApprove := autoApprove,
              OperatorNames := operatorNames }
    Status := { ApprovedCount := int32.ofInt previous, LastApprovedPlan := "",
                LastApprovedTime := none } }

/-- An install plan for `op.v1.2.0`, owned by the Subscription `op-sub`. -/
def examplePlan (name : String) (approved : NestedResult Bool) : InstallPlan :=
  { name := name, approved := approved,
    clusterServiceVersionNames := .found ["op.v1.2.0"],
    ownerReferences := [⟨"Subscription", "op-sub"⟩], setApprovedErr := false }

/-- The name under which `Reconcile` is called in the examples. -/
def exampleRequest : NamespacedName := ⟨"", "approver"⟩

/-! ## The pass of `Reconcile`, named -/

/-- The variables of `Reconcile` after its loop over `namespaces`, for the
policy `approver` read under `req`, `calls` being those made to resolve the
namespaces. -/
def passState (c : Client) (req : NamespacedName) (approver : InstallPlanApprover)
    (calls : List Call) (namespaces : List String) : PassState :=
  reconcileNamespaces c approver.Spec.OperatorNames
    ⟨int32.ofInt 0, "", none, false, Call.getApprover req :: calls⟩ namespaces

/-- The policy object `Reconcile` hands to the status update after a pass that
ended in `st`. -/
def updatedApprover (approver : InstallPlanApprover) (st : PassState) : InstallPlanApprover :=
  { approver with
    Status :=
      { ApprovedCount := approver.Status.ApprovedCount + st.approvedCount
        LastApprovedPlan := st.lastApprovedPlan
        LastApprovedTime := st.lastApprovedTime } }

/-- The sum of the approved counts that `processNamespace` returns over the
namespaces of `namespaces` whose processing returned no error. -/
def returnedCounts (c : Client) (operatorNames : List String) (namespaces : List String) : Int :=
  ((namespaces.filter fun ns => (processNamespace c ns operatorNames).err = none).map
    fun ns => (processNamespace c ns operatorNames).approvedCount.val).sum

/-! # Theorems -/

/-! ## Arithmetic of `int32` -/

theorem wrapInt32_range (x : Int) :
    -2147483648 ≤ wrapInt32 x ∧ wrapInt32 x ≤ 2147483647 := by
  unfold wrapInt32; omega

theorem wrapInt32_of_range (x : Int) (h1 : -2147483648 ≤ x) (h2 : x ≤ 2147483647) :
    wrapInt32 x = x := by
  unfold wrapInt32; omega

theorem wrapInt32_add_wrap (a b : Int) :
    wrapInt32 (wrapInt32 a + wrapInt32 b) = wrapInt32 (a + b) := by
  unfold wrapInt32; omega

theorem wrapInt32_le_self (n : Int) (h : 0 ≤ n) : wrapInt32 n ≤ n := by
  unfold wrapInt32; omega

theorem int32.ofInt_val (x : Int) : (int32.ofInt x).val = wrapInt32 x := rfl

theorem int32.add_val (a b : int32) : (a + b).val = wrapInt32 (a.val + b.val) := rfl

theorem int32.wrap_val (a : int32) : wrapInt32 a.val = a.val :=
  wrapInt32_of_range a.val a.property.1 a.property.2

/-! ## The loop of `processNamespace` -/

theorem processInstallPlan_eq (c : Client) (ns : String) (ops : List String)
    (acc : NamespaceResult) (item : InstallPlan) :
    processInstallPlan c ns ops acc item
      = applyEffect c ns item (itemEffect c ns ops item) acc := by
  unfold processInstallPlan itemEffect applyEffect
  rcases h : itemOutcome c ns ops item with ⟨o, calls⟩
  rcases o with _ | d
  · simp
  · cases d <;> simp
    · split
      · simp
      · split <;> simp

theorem matchesSubscriptionVersion_calls (c : Client) (p : InstallPlan) (ns : String) :
    (matchesSubscriptionVersion c p ns).2 = [] ∨
      (matchesSubscriptionVersion c p ns).2
        = [Call.getSubscription ns (subscriptionOwnerName p.ownerReferences)] := by
  unfold matchesSubscriptionVersion
  split
  · simp only
    split
    · simp
    · split
      · simp
      · split
        · split
          · simp
          · split <;> simp
        · simp
  · simp

theorem itemOutcome_calls (c : Client) (ns : String) (ops : List String) (p : InstallPlan) :
    (itemOutcome c ns ops p).2 = [] ∨
      (itemOutcome c ns ops p).2
        = [Call.getSubscription ns (subscriptionOwnerName p.ownerReferences)] := by
  unfold itemOutcome
  split
  · simp
  · simp
  · split
    · simp
    · simp only
      split <;> exact matchesSubscriptionVersion_calls c p ns

theorem approvals_nil : approvals [] = 0 := rfl

theorem approvals_append (xs ys : List Call) :
    approvals (xs ++ ys) = approvals xs + approvals ys := by
  simp [approvals, List.countP_append]

theorem approvals_cons (x : Call) (xs : List Call) :
    approvals (x :: xs) = approvals xs + (if x.isApproval then 1 else 0) := by
  simp [approvals, List.countP_cons]

theorem lastApprovalFrom_append (init : Option (String × String)) (xs ys : List Call) :
    lastApprovalFrom init (xs ++ ys) = lastApprovalFrom (lastApprovalFrom init xs) ys := by
  simp [lastApprovalFrom, List.foldl_append]

theorem itemOutcome_approvals (c : Client) (ns : String) (ops : List String) (p : InstallPlan) :
    approvals (itemOutcome c ns ops p).2 = 0 := by
  rcases itemOutcome_calls c ns ops p with h | h <;> rw [h] <;> rfl

theorem itemOutcome_lastApproval (c : Client) (ns : String) (ops : List String)
    (p : InstallPlan) (init : Option (String × String)) :
    lastApprovalFrom init (itemOutcome c ns ops p).2 = init := by
  rcases itemOutcome_calls c ns ops p with h | h <;> rw [h] <;> rfl

theorem itemEffect_approvals (c : Client) (ns : String) (ops : List String) (p : InstallPlan) :
    approvals (itemEffect c ns ops p).calls = if (itemEffect c ns ops p).approve then 1 else 0 := by
  have h0 := itemOutcome_approvals c ns ops p
  unfold itemEffect
  rcases h : itemOutcome c ns ops p with ⟨o, calls⟩
  rw [h] at h0
  simp only at h0
  rcases o with _ | d
  · simp [approvals]
  · cases d <;> simp [approvals_nil]
    · exact h0
    · split
      · simpa using h0
      · split <;> simp [approvals_append, approvals_cons, approvals_nil, h0, Call.isApproval]

theorem itemEffect_lastApproval (c : Client) (ns : String) (ops : List String) (p : InstallPlan)
    (init : Option (String × String)) :
    lastApprovalFrom init (itemEffect c ns ops p).calls
      = if (itemEffect c ns ops p).approve then some (ns, p.name) else init := by
  have h0 := itemOutcome_lastApproval c ns ops p init
  unfold itemEffect
  rcases h : itemOutcome c ns ops p with ⟨o, calls⟩
  rw [h] at h0
  simp only at h0
  rcases o with _ | d
  · simp [lastApprovalFrom, noteApproval]
  · cases d <;> simp
    · simp [lastApprovalFrom, noteApproval]
    · simp [lastApprovalFrom, noteApproval]
    · exact h0
    · split
      · simpa using h0
      · split <;> simp [lastApprovalFrom_append, h0] <;> simp [lastApprovalFrom, noteApproval]

theorem processInstallPlans_nil (c : Client) (ns : String) (ops : List String)
    (acc : NamespaceResult) : processInstallPlans c ns ops acc [] = acc := rfl

theorem processInstallPlans_cons (c : Client) (ns : String) (ops : List String)
    (acc : NamespaceResult) (p : InstallPlan) (ps : List InstallPlan) :
    processInstallPlans c ns ops acc (p :: ps)
      = processInstallPlans c ns ops (processInstallPlan c ns ops acc p) ps := rfl

theorem processInstallPlans_append (c : Client) (ns : String) (ops : List String)
    (acc : NamespaceResult) (xs ys : List InstallPlan) :
    processInstallPlans c ns ops acc (xs ++ ys)
      = processInstallPlans c ns ops (processInstallPlans c ns ops acc xs) ys := by
  simp [processInstallPlans, List.foldl_append]

/-- A view of the loop variables that every iteration maps compatibly is
mapped compatibly by the whole loop. -/
theorem processInstallPlans_congr {β : Type} (f : NamespaceResult → β)
    (c : Client) (ns : String) (ops : List String)
    (hf : ∀ (a b : NamespaceResult) (p : InstallPlan), f a = f b →
      f (processInstallPlan c ns ops a p) = f (processInstallPlan c ns ops b p))
    (items : List InstallPlan) :
    ∀ a b : NamespaceResult, f a = f b →
      f (processInstallPlans c ns ops a items) = f (processInstallPlans c ns ops b items) := by
  induction items with
  | nil => intro a b h; simpa [processInstallPlans_nil] using h
  | cons p ps ih =>
    intro a b h
    rw [processInstallPlans_cons, processInstallPlans_cons]
    exact ih _ _ (hf a b p h)

theorem processInstallPlans_err (c : Client) (ns : String) (ops : List String)
    (items : List InstallPlan) :
    ∀ acc : NamespaceResult, (processInstallPlans c ns ops acc items).err = acc.err := by
  induction items with
  | nil => intro acc; rfl
  | cons p ps ih =>
    intro acc
    rw [processInstallPlans_cons, ih, processInstallPlan_eq]
    rfl

theorem processInstallPlan_count (c : Client) (ns : String) (ops : List String)
    (acc : NamespaceResult) (p : InstallPlan)
    (h : acc.approvedCount.val = wrapInt32 (approvals acc.calls)) :
    (processInstallPlan c ns ops acc p).approvedCount.val
      = wrapInt32 (approvals (processInstallPlan c ns ops acc p).calls) := by
  rw [processInstallPlan_eq]
  simp only [applyEffect, approvals_append, itemEffect_approvals]
  split
  · rw [int32.add_val, h, int32.ofInt_val]
    simp only [Nat.cast_add, Nat.cast_one]
    unfold wrapInt32; omega
  · simpa using h

theorem processInstallPlans_count (c : Client) (ns : String) (ops : List String)
    (items : List InstallPlan) :
    ∀ acc : NamespaceResult, acc.approvedCount.val = wrapInt32 (approvals acc.calls) →
      (processInstallPlans c ns ops acc items).approvedCount.val
        = wrapInt32 (approvals (processInstallPlans c ns ops acc items).calls) := by
  induction items with
  | nil => intro acc h; exact h
  | cons p ps ih =>
    intro acc h
    rw [processInstallPlans_cons]
    exact ih _ (processInstallPlan_count c ns ops acc p h)

theorem processInstallPlans_flag_mono (c : Client) (ns : String) (ops : List String)
    (items : List InstallPlan) :
    ∀ acc : NamespaceResult, acc.foundNonMatching = true →
      (processInstallPlans c ns ops acc items).foundNonMatching = true := by
  induction items with
  | nil => intro acc h; exact h
  | cons p ps ih =>
    intro acc h
    rw [processInstallPlans_cons]
    apply ih
    rw [processInstallPlan_eq]
    simp [applyEffect, h]

theorem processInstallPlan_withListing (c : Client) (n : String) (l : List InstallPlan)
    (ns : String) (ops : List String) (acc : NamespaceResult) (p : InstallPlan) :
    processInstallPlan (withListing c n l) ns ops acc p = processInstallPlan c ns ops acc p :=
  rfl

theorem processInstallPlans_withListing (c : Client) (n : String) (l : List InstallPlan)
    (ns : String) (ops : List String) (items : List InstallPlan) :
    ∀ acc : NamespaceResult,
      processInstallPlans (withListing c n l) ns ops acc items
        = processInstallPlans c ns ops acc items := by
  induction items with
  | nil => intro acc; rfl
  | cons p ps ih =>
    intro acc
    rw [processInstallPlans_cons, processInstallPlans_cons, ih, processInstallPlan_withListing]

theorem processNamespace_withListing (c : Client) (ns : String) (ops : List String)
    (items : List InstallPlan) :
    processNamespace (withListing c ns items) ns ops
      = processInstallPlans c ns ops
          ⟨int32.ofInt 0, "", none, false, none, [Call.listInstallPlans ns]⟩ items := by
  unfold processNamespace
  simp only [withListing, if_true]
  exact processInstallPlans_withListing c ns items ns ops items _

theorem processNamespace_of_listing (c : Client) (ns : String) (ops : List String)
    (items : List InstallPlan) (h : c.listInstallPlans ns = .ok items) :
    processNamespace c ns ops
      = processInstallPlans c ns ops
          ⟨int32.ofInt 0, "", none, false, none, [Call.listInstallPlans ns]⟩ items := by
  unfold processNamespace
  rw [h]

/-- An item on which the iteration changes nothing can be dropped from the listing. -/
theorem processInstallPlans_drop (c : Client) (ns : String) (ops : List String)
    (pre post : List InstallPlan) (p : InstallPlan)
    (h : ∀ acc, processInstallPlan c ns ops acc p = acc) (acc : NamespaceResult) :
    processInstallPlans c ns ops acc (pre ++ p :: post)
      = processInstallPlans c ns ops acc (pre ++ post) := by
  rw [processInstallPlans_append, processInstallPlans_cons, h, ← processInstallPlans_append]

theorem containsSubstring_iff (str substr : String) :
    containsSubstring str substr = true ↔ substr.data <+: str.data := by
  unfold containsSubstring
  simp only [Bool.and_eq_true, decide_eq_true_eq, beq_iff_eq]
  constructor
  · rintro ⟨_, h⟩
    have h2 : List.take substr.length str.data = substr.data := congrArg String.data h
    rw [← h2]
    exact List.take_prefix _ _
  · intro h
    refine ⟨h.length_le, ?_⟩
    have h2 := List.prefix_iff_eq_take.mp h
    have h3 : substr.length = substr.data.length := rfl
    rw [h3, ← h2]

theorem isOperatorAllowed_eq_false (names ops : List String) (hne : ops ≠ [])
    (hno : ∀ n ∈ names, ∀ a ∈ ops, n ≠ a ∧ ¬ a.data <+: n.data) :
    isOperatorAllowed names ops = false := by
  unfold isOperatorAllowed
  have hl : ops.length ≠ 0 := by
    intro h; exact hne (List.length_eq_zero.mp h)
  rw [if_neg hl]
  rw [Bool.eq_false_iff]
  intro h
  rw [List.any_eq_true] at h
  obtain ⟨n, hn, h⟩ := h
  rw [List.any_eq_true] at h
  obtain ⟨a, ha, h⟩ := h
  rw [Bool.or_eq_true, beq_iff_eq, containsSubstring_iff] at h
  rcases h with h | h
  · exact (hno n hn a ha).1 h
  · exact (hno n hn a ha).2 h

theorem processInstallPlan_approved (c : Client) (ns : String) (ops : List String)
    (p : InstallPlan) (h : p.approved = .found true) (acc : NamespaceResult) :
    processInstallPlan c ns ops acc p = acc := by
  unfold processInstallPlan itemOutcome
  rw [h]

theorem processInstallPlan_fieldError (c : Client) (ns : String) (ops : List String)
    (p : InstallPlan) (h : p.approved = .typeError) (acc : NamespaceResult) :
    processInstallPlan c ns ops acc p = acc := by
  unfold processInstallPlan itemOutcome
  rw [h]

theorem processInstallPlan_notAllowed (c : Client) (ns : String) (ops : List String)
    (p : InstallPlan) (hne : ops ≠ [])
    (hno : isOperatorAllowed (p.clusterServiceVersionNames.valueOr []) ops = false)
    (acc : NamespaceResult) :
    processInstallPlan c ns ops acc p = acc := by
  have hl : 0 < ops.length := List.length_pos.mpr hne
  have ho : itemOutcome c ns ops p = (.fieldError, []) ∨
      itemOutcome c ns ops p = (.decided .AlreadyApproved, []) ∨
      itemOutcome c ns ops p = (.decided .NotAllowed, []) := by
    unfold itemOutcome
    split
    · simp
    · simp
    · simp [hl, hno]
  unfold processInstallPlan
  rcases ho with ho | ho | ho <;> rw [ho]

/-- The values `processNamespace` returns, without its calls. -/
theorem processInstallPlan_returned_congr (c : Client) (ns : String) (ops : List String)
    (a b : NamespaceResult) (p : InstallPlan)
    (h : (a.approvedCount, a.lastApprovedPlan, a.lastApprovedTime, a.foundNonMatching, a.err)
      = (b.approvedCount, b.lastApprovedPlan, b.lastApprovedTime, b.foundNonMatching, b.err)) :
    ((processInstallPlan c ns ops a p).approvedCount,
      (processInstallPlan c ns ops a p).lastApprovedPlan,
      (processInstallPlan c ns ops a p).lastApprovedTime,
      (processInstallPlan c ns ops a p).foundNonMatching,
      (processInstallPlan c ns ops a p).err)
    = ((processInstallPlan c ns ops b p).approvedCount,
      (processInstallPlan c ns ops b p).lastApprovedPlan,
      (processInstallPlan c ns ops b p).lastApprovedTime,
      (processInstallPlan c ns ops b p).foundNonMatching,
      (processInstallPlan c ns ops b p).err) := by
  simp only [Prod.mk.injEq] at h
  obtain ⟨h1, h2, h3, h4, h5⟩ := h
  simp only [processInstallPlan_eq, applyEffect, h1, h2, h3, h4, h5]

theorem itemEffect_of_failure (c : Client) (ns : String) (ops : List String) (p : InstallPlan)
    (hfail : p.approved = .typeError ∨
      ((itemOutcome c ns ops p).1 = .decided .Approve ∧
        (p.setApprovedErr = true ∨
          c.updateInstallPlan ns { p with approved := .found true } ≠ none))) :
    (itemEffect c ns ops p).approve = false ∧ (itemEffect c ns ops p).mismatch = false := by
  rcases hfail with h | ⟨h1, h2⟩
  · unfold itemEffect itemOutcome
    rw [h]
    simp
  · unfold itemEffect
    rcases ho : itemOutcome c ns ops p with ⟨o, calls⟩
    rw [ho] at h1
    simp only at h1
    subst h1
    simp only
    rcases h2 with h2 | h2
    · simp [h2]
    · split
      · simp
      · split
        · simp
        · rename_i hnone
          exact absurd hnone h2

/-! ## The loop of `Reconcile` -/

theorem processNamespace_count (c : Client) (ns : String) (ops : List String) :
    (processNamespace c ns ops).approvedCount.val
      = wrapInt32 (approvals (processNamespace c ns ops).calls) := by
  unfold processNamespace
  split
  · split <;> rfl
  · apply processInstallPlans_count
    rfl

theorem processNamespace_err_calls (c : Client) (ns : String) (ops : List String)
    (e : ApiError) (h : (processNamespace c ns ops).err = some e) :
    (processNamespace c ns ops).calls = [Call.listInstallPlans ns] := by
  unfold processNamespace at h ⊢
  split
  · split <;> rfl
  · rename_i items hl
    rw [hl] at h
    simp only at h
    rw [processInstallPlans_err] at h
    simp at h

theorem reconcileNamespaces_nil (c : Client) (ops : List String) (st : PassState) :
    reconcileNamespaces c ops st [] = st := rfl

theorem reconcileNamespaces_cons (c : Client) (ops : List String) (st : PassState)
    (ns : String) (nss : List String) :
    reconcileNamespaces c ops st (ns :: nss)
      = reconcileNamespaces c ops (reconcileNamespace c ops st ns) nss := rfl

theorem reconcileNamespace_calls (c : Client) (ops : List String) (st : PassState)
    (ns : String) :
    (reconcileNamespace c ops st ns).calls = st.calls ++ (processNamespace c ns ops).calls := by
  unfold reconcileNamespace
  simp only
  split <;> rfl

theorem reconcileNamespace_count (c : Client) (ops : List String) (st : PassState)
    (ns : String) (h : st.approvedCount.val = wrapInt32 (approvals st.calls)) :
    (reconcileNamespace c ops st ns).approvedCount.val
      = wrapInt32 (approvals (reconcileNamespace c ops st ns).calls) := by
  rw [reconcileNamespace_calls, approvals_append]
  unfold reconcileNamespace
  simp only
  split
  · rename_i e he
    rw [processNamespace_err_calls c ns ops e he]
    simpa [approvals_cons, approvals_nil, Call.isApproval] using h
  · simp only [int32.add_val, h, processNamespace_count c ns ops, Nat.cast_add]
    exact wrapInt32_add_wrap _ _

theorem reconcileNamespaces_count (c : Client) (ops : List String) (nss : List String) :
    ∀ st : PassState, st.approvedCount.val = wrapInt32 (approvals st.calls) →
      (reconcileNamespaces c ops st nss).approvedCount.val
        = wrapInt32 (approvals (reconcileNamespaces c ops st nss).calls) := by
  induction nss with
  | nil => intro st h; exact h
  | cons ns nss ih =>
    intro st h
    rw [reconcileNamespaces_cons]
    exact ih _ (reconcileNamespace_count c ops st ns h)

theorem reconcileNamespace_flag (c : Client) (ops : List String) (st : PassState)
    (ns : String) :
    (reconcileNamespace c ops st ns).foundNonMatchingPlans = true ↔
      st.foundNonMatchingPlans = true ∨
        ((processNamespace c ns ops).err = none ∧
          (processNamespace c ns ops).foundNonMatching = true) := by
  unfold reconcileNamespace
  simp only
  split
  · rename_i e he
    simp [he]
  · rename_i he
    simp only [he, true_and]
    split
    · rename_i hf
      simp [hf]
    · rename_i hf
      simp [hf]

theorem reconcileNamespaces_flag (c : Client) (ops : List String) (nss : List String) :
    ∀ st : PassState,
      (reconcileNamespaces c ops st nss).foundNonMatchingPlans = true ↔
        st.foundNonMatchingPlans = true ∨
          ∃ ns ∈ nss, (processNamespace c ns ops).err = none ∧
            (processNamespace c ns ops).foundNonMatching = true := by
  induction nss with
  | nil => intro st; simp [reconcileNamespaces_nil]
  | cons ns nss ih =>
    intro st
    rw [reconcileNamespaces_cons, ih, reconcileNamespace_flag]
    simp only [List.mem_cons, exists_eq_or_imp]
    tauto

theorem resolveNamespaces_approvals (c : Client) (a : InstallPlanApprover) :
    approvals (resolveNamespaces c a).2 = 0 := by
  unfold resolveNamespaces
  split
  · split <;> rfl
  · rfl

theorem passState_count (c : Client) (req : NamespacedName) (a : InstallPlanApprover)
    (r : Except ApiError (List String)) (cs : List Call) (nss : List String)
    (hres : resolveNamespaces c a = (r, cs)) :
    (passState c req a cs nss).approvedCount.val
      = wrapInt32 (approvals (passState c req a cs nss).calls) := by
  unfold passState
  apply reconcileNamespaces_count
  have h := resolveNamespaces_approvals c a
  rw [hres] at h
  simp only at h
  simp [approvals_cons, h, Call.isApproval, int32.ofInt_val, wrapInt32]

theorem passState_flag (c : Client) (req : NamespacedName) (a : InstallPlanApprover)
    (cs : List Call) (nss : List String) :
    (passState c req a cs nss).foundNonMatchingPlans = true ↔
      ∃ ns ∈ nss, (processNamespace c ns a.Spec.OperatorNames).err = none ∧
        (processNamespace c ns a.Spec.OperatorNames).foundNonMatching = true := by
  unfold passState
  rw [reconcileNamespaces_flag]
  simp

theorem Reconcile_idle (c : Client) (req : NamespacedName) (a : InstallPlanApprover)
    (nss : List String) (cs : List Call)
    (hget : c.getApprover req = .ok a) (hauto : a.Spec.AutoApprove = true)
    (hres : resolveNamespaces c a = (.ok nss, cs))
    (hcount : ¬ (passState c req a cs nss).approvedCount.val > 0) :
    Reconcile c req
      = ⟨{ RequeueAfter :=
            if (passState c req a cs nss).foundNonMatchingPlans then 3 * Minute else 1 * Minute },
          none, some a.Status, (passState c req a cs nss).calls⟩ := by
  unfold Reconcile
  rw [hget]
  simp only [hauto, hres]
  unfold passState at hcount
  simp [hcount, passState]

theorem Reconcile_stored (c : Client) (req : NamespacedName) (a : InstallPlanApprover)
    (nss : List String) (cs : List Call)
    (hget : c.getApprover req = .ok a) (hauto : a.Spec.AutoApprove = true)
    (hres : resolveNamespaces c a = (.ok nss, cs))
    (hcount : (passState c req a cs nss).approvedCount.val > 0)
    (hupd : c.updateStatus (updatedApprover a (passState c req a cs nss)) = none) :
    Reconcile c req
      = ⟨{}, none, some (updatedApprover a (passState c req a cs nss)).Status,
          (passState c req a cs nss).calls ++
            [Call.updateStatus (updatedApprover a (passState c req a cs nss)) true]⟩ := by
  unfold Reconcile
  rw [hget]
  simp only [hauto, hres]
  unfold passState at hcount
  unfold passState updatedApprover at hupd
  simp [hcount, hupd, passState, updatedApprover]

theorem Reconcile_refused (c : Client) (req : NamespacedName) (a : InstallPlanApprover)
    (nss : List String) (cs : List Call) (e : ApiError)
    (hget : c.getApprover req = .ok a) (hauto : a.Spec.AutoApprove = true)
    (hres : resolveNamespaces c a = (.ok nss, cs))
    (hcount : (passState c req a cs nss).approvedCount.val > 0)
    (hupd : c.updateStatus (updatedApprover a (passState c req a cs nss)) = some e) :
    Reconcile c req
      = ⟨{}, some e, some a.Status,
          (passState c req a cs nss).calls ++
            [Call.updateStatus (updatedApprover a (passState c req a cs nss)) false]⟩ := by
  unfold Reconcile
  rw [hget]
  simp only [hauto, hres]
  unfold passState at hcount
  unfold passState updatedApprover at hupd
  simp [hcount, hupd, passState, updatedApprover]

theorem Reconcile_disabled (c : Client) (req : NamespacedName) (a : InstallPlanApprover)
    (hget : c.getApprover req = .ok a) (hoff : a.Spec.AutoApprove = false) :
    Reconcile c req = ⟨{}, none, some a.Status, [Call.getApprover req]⟩ := by
  unfold Reconcile
  rw [hget]
  simp [hoff]

theorem Reconcile_unresolved (c : Client) (req : NamespacedName) (a : InstallPlanApprover)
    (e : ApiError) (cs : List Call)
    (hget : c.getApprover req = .ok a) (hauto : a.Spec.AutoApprove = true)
    (hres : resolveNamespaces c a = (.error e, cs)) :
    Reconcile c req = ⟨{}, some e, some a.Status, Call.getApprover req :: cs⟩ := by
  unfold Reconcile
  rw [hget]
  simp [hauto, hres]

theorem approvals_snoc_updateStatus (calls : List Call) (a : InstallPlanApprover) (ok : Bool) :
    approvals (calls ++ [Call.updateStatus a ok]) = approvals calls := by
  simp [approvals_append, approvals_cons, approvals_nil, Call.isApproval]

theorem wrapInt32_pos_of_nat (n : Nat) (h : wrapInt32 n > 0) : 0 < n := by
  unfold wrapInt32 at h; omega

theorem Minute_facts : (0 : Duration) ≠ 1 * Minute ∧ (0 : Duration) ≠ 3 * Minute ∧
    (1 : Duration) * Minute ≠ 3 * Minute := by
  unfold Minute; decide

/-! ## The last approval of a run -/

theorem lastApprovalFrom_cons (init : Option (String × String)) (x : Call) (xs : List Call) :
    lastApprovalFrom init (x :: xs) = lastApprovalFrom (noteApproval init x) xs := rfl

theorem lastApprovalFrom_eq (xs : List Call) :
    ∀ init : Option (String × String),
      lastApprovalFrom init xs
        = match lastApproval xs with
          | some r => some r
          | none => init := by
  induction xs with
  | nil => intro init; rfl
  | cons x xs ih =>
    intro init
    have h2 : lastApproval (x :: xs)
        = match lastApproval xs with
          | some r => some r
          | none => noteApproval none x := ih (noteApproval none x)
    rw [lastApprovalFrom_cons, ih (noteApproval init x), h2]
    cases lastApproval xs with
    | some r => rfl
    | none =>
      simp only
      cases x <;> try rfl
      rename_i ns plan ok
      cases ok <;> rfl

theorem lastApproval_append (xs ys : List Call) :
    lastApproval (xs ++ ys)
      = match lastApproval ys with
        | some r => some r
        | none => lastApproval xs := by
  unfold lastApproval
  rw [lastApprovalFrom_append, lastApprovalFrom_eq ys]
  rfl

theorem lastApproval_of_approvals_pos (xs : List Call) (h : 0 < approvals xs) :
    ∃ r, lastApproval xs = some r := by
  induction xs using List.reverseRecOn with
  | nil => simp [approvals_nil] at h
  | append_singleton xs x ih =>
    rw [lastApproval_append]
    cases x with
    | updateInstallPlan ns plan ok =>
      cases ok with
      | true => exact ⟨(ns, plan.name), rfl⟩
      | false =>
        have h2 : 0 < approvals xs := by
          simpa [approvals_append, approvals_cons, approvals_nil, Call.isApproval] using h
        obtain ⟨r, hr⟩ := ih h2
        exact ⟨r, by rw [hr]; rfl⟩
    | _ =>
      all_goals
        have h2 : 0 < approvals xs := by
          simpa [approvals_append, approvals_cons, approvals_nil, Call.isApproval] using h
        obtain ⟨r, hr⟩ := ih h2
        exact ⟨r, by rw [hr]; rfl⟩

/-- The last approved name returned by the loop of `processNamespace` is the
name in the last approval of its calls, when names are not empty. -/
theorem processInstallPlans_lastApproval (c : Client) (ns : String) (ops : List String)
    (items : List InstallPlan) (hnames : ∀ p ∈ items, p.name ≠ "") :
    ∀ acc : NamespaceResult,
      ((lastApproval acc.calls = none ∧ acc.lastApprovedPlan = "") ∨
        (lastApproval acc.calls = some (ns, acc.lastApprovedPlan) ∧ acc.lastApprovedPlan ≠ "")) →
      ((lastApproval (processInstallPlans c ns ops acc items).calls = none ∧
          (processInstallPlans c ns ops acc items).lastApprovedPlan = "") ∨
        (lastApproval (processInstallPlans c ns ops acc items).calls
            = some (ns, (processInstallPlans c ns ops acc items).lastApprovedPlan) ∧
          (processInstallPlans c ns ops acc items).lastApprovedPlan ≠ "")) := by
  induction items with
  | nil => intro acc h; exact h
  | cons p ps ih =>
    intro acc h
    rw [processInstallPlans_cons]
    apply ih (fun q hq => hnames q (List.mem_cons_of_mem p hq))
    have hp := hnames p (List.mem_cons_self p ps)
    rw [processInstallPlan_eq]
    simp only [applyEffect]
    have hl : lastApproval (acc.calls ++ (itemEffect c ns ops p).calls)
        = if (itemEffect c ns ops p).approve then some (ns, p.name)
          else lastApproval acc.calls := by
      unfold lastApproval
      rw [lastApprovalFrom_append, itemEffect_lastApproval]
    rw [hl]
    cases (itemEffect c ns ops p).approve with
    | true => exact Or.inr ⟨rfl, hp⟩
    | false => exact h

theorem processNamespace_lastApproval (c : Client) (ns : String) (ops : List String)
    (hnames : ∀ items, c.listInstallPlans ns = .ok items → ∀ p ∈ items, p.name ≠ "") :
    (lastApproval (processNamespace c ns ops).calls = none ∧
        (processNamespace c ns ops).lastApprovedPlan = "") ∨
      (lastApproval (processNamespace c ns ops).calls
          = some (ns, (processNamespace c ns ops).lastApprovedPlan) ∧
        (processNamespace c ns ops).lastApprovedPlan ≠ "") := by
  cases hl : c.listInstallPlans ns with
  | error e =>
    left
    unfold processNamespace
    rw [hl]
    simp only
    split <;> exact ⟨rfl, rfl⟩
  | ok items =>
    rw [processNamespace_of_listing c ns ops items hl]
    exact processInstallPlans_lastApproval c ns ops items (hnames items hl) _ (Or.inl ⟨rfl, rfl⟩)

theorem reconcileNamespace_lastApproval (c : Client) (ops : List String) (st : PassState)
    (ns : String)
    (hnames : ∀ items, c.listInstallPlans ns = .ok items → ∀ p ∈ items, p.name ≠ "")
    (h : ∀ n name, lastApproval st.calls = some (n, name) →
      st.lastApprovedPlan = n ++ "/" ++ name) :
    ∀ n name, lastApproval (reconcileNamespace c ops st ns).calls = some (n, name) →
      (reconcileNamespace c ops st ns).lastApprovedPlan = n ++ "/" ++ name := by
  intro n name
  rw [reconcileNamespace_calls, lastApproval_append]
  have hJ := processNamespace_lastApproval c ns ops hnames
  unfold reconcileNamespace
  simp only
  cases herr : (processNamespace c ns ops).err with
  | some e =>
    simp only
    rw [processNamespace_err_calls c ns ops e herr]
    exact h n name
  | none =>
    simp only
    rcases hJ with ⟨h1, h2⟩ | ⟨h1, h2⟩
    · rw [h1, h2]
      simp only [ne_eq, not_true_eq_false, if_false]
      exact h n name
    · rw [h1]
      simp only [ne_eq, h2, not_false_eq_true, if_true]
      intro heq
      have := Option.some.inj heq
      rw [Prod.mk.injEq] at this
      rw [← this.1, ← this.2]

theorem reconcileNamespaces_lastApproval (c : Client) (ops : List String) (nss : List String)
    (hnames : ∀ ns ∈ nss, ∀ items, c.listInstallPlans ns = .ok items →
      ∀ p ∈ items, p.name ≠ "") :
    ∀ st : PassState,
      (∀ n name, lastApproval st.calls = some (n, name) →
        st.lastApprovedPlan = n ++ "/" ++ name) →
      ∀ n name, lastApproval (reconcileNamespaces c ops st nss).calls = some (n, name) →
        (reconcileNamespaces c ops st nss).lastApprovedPlan = n ++ "/" ++ name := by
  induction nss with
  | nil => intro st h; exact h
  | cons ns nss ih =>
    intro st h
    rw [reconcileNamespaces_cons]
    exact ih (fun m hm => hnames m (List.mem_cons_of_mem ns hm)) _
      (reconcileNamespace_lastApproval c ops st ns (hnames ns (List.mem_cons_self ns nss)) h)

theorem resolveNamespaces_lastApproval (c : Client) (a : InstallPlanApprover)
    (req : NamespacedName) :
    lastApproval (Call.getApprover req :: (resolveNamespaces c a).2) = none := by
  unfold resolveNamespaces
  split
  · split <;> rfl
  · rfl

theorem passState_lastApproval (c : Client) (req : NamespacedName) (a : InstallPlanApprover)
    (r : Except ApiError (List String)) (cs : List Call) (nss : List String)
    (hres : resolveNamespaces c a = (r, cs))
    (hnames : ∀ ns ∈ nss, ∀ items, c.listInstallPlans ns = .ok items →
      ∀ p ∈ items, p.name ≠ "") :
    ∀ n name, lastApproval (passState c req a cs nss).calls = some (n, name) →
      (passState c req a cs nss).lastApprovedPlan = n ++ "/" ++ name := by
  unfold passState
  apply reconcileNamespaces_lastApproval c _ nss hnames
  intro n name h
  have h0 := resolveNamespaces_lastApproval c a req
  rw [hres] at h0
  simp only at h0 h
  rw [h0] at h
  exact absurd h (by simp)

/-! ## Totals of a pass -/

theorem reconcileNamespaces_approvals (c : Client) (ops : List String) (nss : List String) :
    ∀ st : PassState,
      approvals (reconcileNamespaces c ops st nss).calls
        = approvals st.calls
          + (nss.map fun ns => approvals (processNamespace c ns ops).calls).sum := by
  induction nss with
  | nil => intro st; simp [reconcileNamespaces_nil]
  | cons ns nss ih =>
    intro st
    rw [reconcileNamespaces_cons, ih, reconcileNamespace_calls, approvals_append]
    simp only [List.map_cons, List.sum_cons]
    omega

theorem returnedCounts_nil (c : Client) (ops : List String) : returnedCounts c ops [] = 0 := rfl

theorem returnedCounts_cons (c : Client) (ops : List String) (ns : String)
    (nss : List String) :
    returnedCounts c ops (ns :: nss)
      = (if (processNamespace c ns ops).err = none
          then (processNamespace c ns ops).approvedCount.val else 0)
        + returnedCounts c ops nss := by
  unfold returnedCounts
  by_cases h : (processNamespace c ns ops).err = none
  · simp [List.filter_cons, h]
  · simp [List.filter_cons, h]

theorem returnedCounts_eq (c : Client) (ops : List String) (nss : List String)
    (h : (nss.map fun ns => approvals (processNamespace c ns ops).calls).sum < 2147483648) :
    returnedCounts c ops nss
      = (((nss.map fun ns => approvals (processNamespace c ns ops).calls).sum : Nat) : Int) := by
  induction nss with
  | nil => rfl
  | cons ns nss ih =>
    simp only [List.map_cons, List.sum_cons] at h ⊢
    rw [returnedCounts_cons, ih (by omega)]
    have hc := processNamespace_count c ns ops
    cases herr : (processNamespace c ns ops).err with
    | some e =>
      have h0 : approvals (processNamespace c ns ops).calls = 0 := by
        rw [processNamespace_err_calls c ns ops e herr]
        rfl
      simp [h0]
    | none =>
      rw [if_pos rfl, hc, wrapInt32_of_range _ (by omega) (by omega)]
      push_cast
      rfl

theorem passState_approvals (c : Client) (req : NamespacedName) (a : InstallPlanApprover)
    (r : Except ApiError (List String)) (cs : List Call) (nss : List String)
    (hres : resolveNamespaces c a = (r, cs)) :
    approvals (passState c req a cs nss).calls
      = (nss.map fun ns => approvals (processNamespace c ns a.Spec.OperatorNames).calls).sum := by
  unfold passState
  rw [reconcileNamespaces_approvals]
  have h := resolveNamespaces_approvals c a
  rw [hres] at h
  simp only at h
  simp [approvals_cons, h, Call.isApproval]

theorem lastApproval_snoc_updateStatus (calls : List Call) (a : InstallPlanApprover)
    (ok : Bool) :
    lastApproval (calls ++ [Call.updateStatus a ok]) = lastApproval calls := by
  rw [lastApproval_append]
  rfl

/-! ## The version check -/

theorem subscriptionOwnerName_eq (owners : List OwnerReference) :
    subscriptionOwnerName owners
      = match owners.find? (fun owner => owner.Kind == "Subscription") with
        | some owner => owner.Name
        | none => "" := by
  induction owners with
  | nil => rfl
  | cons o os ih =>
    unfold subscriptionOwnerName
    by_cases h : o.Kind = "Subscription"
    · simp [List.find?_cons, h]
    · simp [List.find?_cons, h, ih]

theorem matchesSubscriptionVersion_mismatch (c : Client) (ns : String) (p : InstallPlan)
    (v : String) (rest : List String) (owner : OwnerReference) (sub : Subscription)
    (s : String)
    (hcsv : p.clusterServiceVersionNames = .found (v :: rest))
    (howner : p.ownerReferences.find? (fun o => o.Kind == "Subscription") = some owner)
    (hname : owner.Name ≠ "")
    (hget : c.getSubscription ns owner.Name = .ok sub)
    (hstart : sub.startingCSV = .found s) (hs : s ≠ "") (hdiff : s ≠ v) :
    matchesSubscriptionVersion c p ns = (false, [Call.getSubscription ns owner.Name]) := by
  have hn : subscriptionOwnerName p.ownerReferences = owner.Name := by
    rw [subscriptionOwnerName_eq, howner]
  unfold matchesSubscriptionVersion
  rw [hcsv]
  simp only [hn, hname, if_false, hget, hstart, hs]
  rw [if_neg (fun h => hdiff h.symm)]

theorem isOperatorAllowed_of_match (names ops : List String)
    (h : ∃ n ∈ names, ∃ a ∈ ops, n = a ∨ a.data <+: n.data) :
    isOperatorAllowed names ops = true := by
  unfold isOperatorAllowed
  split
  · rfl
  · obtain ⟨n, hn, a, ha, hm⟩ := h
    rw [List.any_eq_true]
    refine ⟨n, hn, ?_⟩
    rw [List.any_eq_true]
    refine ⟨a, ha, ?_⟩
    rw [Bool.or_eq_true, beq_iff_eq, containsSubstring_iff]
    exact hm

theorem itemOutcome_mismatch (c : Client) (ns : String) (ops : List String) (p : InstallPlan)
    (v : String) (rest : List String) (owner : OwnerReference) (sub : Subscription)
    (s : String)
    (happ : p.approved = .absent ∨ p.approved = .found false)
    (hallow : ops = [] ∨ ∃ n ∈ csvNames p, ∃ a ∈ ops, n = a ∨ a.data <+: n.data)
    (hcsv : p.clusterServiceVersionNames = .found (v :: rest))
    (howner : p.ownerReferences.find? (fun o => o.Kind == "Subscription") = some owner)
    (hname : owner.Name ≠ "")
    (hget : c.getSubscription ns owner.Name = .ok sub)
    (hstart : sub.startingCSV = .found s) (hs : s ≠ "") (hdiff : s ≠ v) :
    itemOutcome c ns ops p
      = (.decided .VersionMismatch, [Call.getSubscription ns owner.Name]) := by
  have hm := matchesSubscriptionVersion_mismatch c ns p v rest owner sub s hcsv howner hname
    hget hstart hs hdiff
  have hgate : (decide (ops.length > 0) &&
      !isOperatorAllowed (p.clusterServiceVersionNames.valueOr []) ops) = false := by
    rcases hallow with h | h
    · subst h; rfl
    · have := isOperatorAllowed_of_match _ ops h
      unfold csvNames at this
      rw [this]
      simp
  unfold itemOutcome
  rcases happ with h | h <;> rw [h] <;> simp only [hgate, hm] <;> rfl

theorem processInstallPlan_counted_congr (c : Client) (ns : String) (ops : List String)
    (a b : NamespaceResult) (p : InstallPlan)
    (h : (a.approvedCount, a.lastApprovedPlan, a.lastApprovedTime, a.err)
      = (b.approvedCount, b.lastApprovedPlan, b.lastApprovedTime, b.err)) :
    ((processInstallPlan c ns ops a p).approvedCount,
      (processInstallPlan c ns ops a p).lastApprovedPlan,
      (processInstallPlan c ns ops a p).lastApprovedTime,
      (processInstallPlan c ns ops a p).err)
    = ((processInstallPlan c ns ops b p).approvedCount,
      (processInstallPlan c ns ops b p).lastApprovedPlan,
      (processInstallPlan c ns ops b p).lastApprovedTime,
      (processInstallPlan c ns ops b p).err) := by
  simp only [Prod.mk.injEq] at h
  obtain ⟨h1, h2, h3, h4⟩ := h
  simp only [processInstallPlan_eq, applyEffect, h1, h2, h3, h4]

/-- A pass of an enabled policy without approvals: the delay follows the flag. -/
theorem Reconcile_without_approvals (c : Client) (req : NamespacedName)
    (a : InstallPlanApprover) (nss : List String) (cs : List Call)
    (hget : c.getApprover req = .ok a) (hauto : a.Spec.AutoApprove = true)
    (hres : resolveNamespaces c a = (.ok nss, cs))
    (hzero : approvals (Reconcile c req).calls = 0) :
    (Reconcile c req).result.RequeueAfter
      = if (passState c req a cs nss).foundNonMatchingPlans then 3 * Minute else 1 * Minute := by
  have hinv := passState_count c req a _ cs nss hres
  by_cases hcount : (passState c req a cs nss).approvedCount.val > 0
  · exfalso
    have hpos : 0 < approvals (passState c req a cs nss).calls := by
      rw [hinv] at hcount
      exact wrapInt32_pos_of_nat _ hcount
    cases hupd : c.updateStatus (updatedApprover a (passState c req a cs nss)) with
    | none =>
      rw [Reconcile_stored c req a nss cs hget hauto hres hcount hupd] at hzero
      have h2 := approvals_snoc_updateStatus (passState c req a cs nss).calls
        (updatedApprover a (passState c req a cs nss)) true
      simp only [h2] at hzero
      omega
    | some e =>
      rw [Reconcile_refused c req a nss cs e hget hauto hres hcount hupd] at hzero
      have h2 := approvals_snoc_updateStatus (passState c req a cs nss).calls
        (updatedApprover a (passState c req a cs nss)) false
      simp only [h2] at hzero
      omega
  · rw [Reconcile_idle c req a nss cs hget hauto hres hcount]

/-! ## The decision of the loop body and the evaluator of the specification -/

theorem containsSubstring_eq_isPrefixOf (str substr : String) :
    containsSubstring str substr = substr.data.isPrefixOf str.data := by
  rw [Bool.eq_iff_iff, containsSubstring_iff, List.isPrefixOf_iff_prefix]

theorem isOperatorAllowed_eq_any (names ops : List String) (hne : ops ≠ []) :
    isOperatorAllowed names ops
      = names.any fun n => ops.any fun entry => matchesEntry n entry := by
  unfold isOperatorAllowed
  have hl : ops.length ≠ 0 := fun h => hne (List.length_eq_zero.mp h)
  rw [if_neg hl]
  simp only [matchesEntry, containsSubstring_eq_isPrefixOf]

theorem matchesSubscriptionVersion_spec (c : Client) (ns : String) (p : InstallPlan)
    (hname : ∀ o, p.ownerReferences.find? (fun o => o.Kind == "Subscription") = some o →
      o.Name ≠ "") :
    (if (matchesSubscriptionVersion c p ns).1 then Decision.Approve
      else Decision.VersionMismatch)
    = match csvNames p with
      | [] => .Approve
      | primary :: _ =>
        match p.ownerReferences.find? (fun owner => owner.Kind == "Subscription") with
        | none => .Approve
        | some owner =>
          match c.getSubscription ns owner.Name with
          | .error _ => .Approve
          | .ok subscription =>
            match subscription.startingCSV with
            | .found startingCSV =>
              if startingCSV = "" then .Approve
              else if startingCSV = primary then .Approve
              else .VersionMismatch
            | _ => .Approve := by
  unfold matchesSubscriptionVersion csvNames
  cases hcsv : p.clusterServiceVersionNames with
  | absent => rfl
  | typeError => rfl
  | found names =>
    cases names with
    | nil => rfl
    | cons v rest =>
      simp only [NestedResult.valueOr]
      rw [subscriptionOwnerName_eq]
      cases hown : p.ownerReferences.find? (fun owner => owner.Kind == "Subscription") with
      | none => simp
      | some owner =>
        have hn := hname owner hown
        simp only [hn, if_false]
        cases hget : c.getSubscription ns owner.Name with
        | error e => simp
        | ok sub =>
          cases hs : sub.startingCSV with
          | absent => simp [hs]
          | typeError => simp [hs]
          | found s =>
            simp only [hs]
            by_cases h1 : s = ""
            · simp [h1]
            · by_cases h2 : v = s
              · simp [h1, h2]
              · have h3 : ¬ s = v := fun h => h2 h.symm
                simp [h1, h2, h3]

/-! ## One namespace with one matching request -/

theorem matchesSubscriptionVersion_match (c : Client) (ns : String) (p : InstallPlan)
    (v : String) (rest : List String) (owner : OwnerReference) (sub : Subscription)
    (hcsv : p.clusterServiceVersionNames = .found (v :: rest))
    (howner : p.ownerReferences.find? (fun o => o.Kind == "Subscription") = some owner)
    (hname : owner.Name ≠ "")
    (hget : c.getSubscription ns owner.Name = .ok sub)
    (hstart : sub.startingCSV = .found v) :
    matchesSubscriptionVersion c p ns = (true, [Call.getSubscription ns owner.Name]) := by
  have hn : subscriptionOwnerName p.ownerReferences = owner.Name := by
    rw [subscriptionOwnerName_eq, howner]
  unfold matchesSubscriptionVersion
  rw [hcsv]
  simp only [hn, hname, if_false, hget, hstart]
  split
  · rfl
  · simp

theorem processInstallPlan_match (c : Client) (ns : String) (ops : List String)
    (p : InstallPlan) (v : String) (rest : List String) (owner : OwnerReference)
    (sub : Subscription)
    (happ : p.approved = .absent ∨ p.approved = .found false)
    (hallow : ops = [] ∨ ∃ n ∈ csvNames p, ∃ e ∈ ops, n = e ∨ e.data <+: n.data)
    (hcsv : p.clusterServiceVersionNames = .found (v :: rest))
    (howner : p.ownerReferences.find? (fun o => o.Kind == "Subscription") = some owner)
    (hname : owner.Name ≠ "")
    (hget : c.getSubscription ns owner.Name = .ok sub)
    (hstart : sub.startingCSV = .found v)
    (hset : p.setApprovedErr = false)
    (hupd : c.updateInstallPlan ns { p with approved := .found true } = none)
    (acc : NamespaceResult) :
    processInstallPlan c ns ops acc p
      = { acc with
          approvedCount := acc.approvedCount + int32.ofInt 1
          lastApprovedPlan := p.name
          lastApprovedTime := some (c.now ns p.name)
          calls := acc.calls ++ [Call.getSubscription ns owner.Name] ++
            [Call.updateInstallPlan ns { p with approved := .found true } true] } := by
  have hm := matchesSubscriptionVersion_match c ns p v rest owner sub hcsv howner hname hget
    hstart
  have hgate : (decide (ops.length > 0) &&
      !isOperatorAllowed (p.clusterServiceVersionNames.valueOr []) ops) = false := by
    rcases hallow with h | h
    · subst h; rfl
    · have := isOperatorAllowed_of_match _ ops h
      unfold csvNames at this
      rw [this]
      simp
  have ho : itemOutcome c ns ops p
      = (.decided .Approve, [Call.getSubscription ns owner.Name]) := by
    unfold itemOutcome
    rcases happ with h | h <;> rw [h] <;> simp only [hgate, hm] <;> rfl
  unfold processInstallPlan
  rw [ho]
  simp only
  rw [if_neg (by simp [hset]), hupd]

theorem passState_single_match (c : Client) (req : NamespacedName) (a : InstallPlanApprover)
    (cs : List Call) (ns : String)
    (p : InstallPlan) (v : String) (rest : List String) (owner : OwnerReference)
    (sub : Subscription)
    (hlist : c.listInstallPlans ns = .ok [p])
    (happ : p.approved = .absent ∨ p.approved = .found false)
    (hallow : a.Spec.OperatorNames = [] ∨
      ∃ n ∈ csvNames p, ∃ e ∈ a.Spec.OperatorNames, n = e ∨ e.data <+: n.data)
    (hcsv : p.clusterServiceVersionNames = .found (v :: rest))
    (howner : p.ownerReferences.find? (fun o => o.Kind == "Subscription") = some owner)
    (hname : owner.Name ≠ "")
    (hget : c.getSubscription ns owner.Name = .ok sub)
    (hstart : sub.startingCSV = .found v)
    (hset : p.setApprovedErr = false)
    (hupd : c.updateInstallPlan ns { p with approved := .found true } = none)
    (hpname : p.name ≠ "") :
    passState c req a cs [ns]
      = ⟨int32.ofInt 0 + (int32.ofInt 0 + int32.ofInt 1), ns ++ "/" ++ p.name,
          some (c.now ns p.name), false,
          (Call.getApprover req :: cs) ++
            ([Call.listInstallPlans ns] ++ [Call.getSubscription ns owner.Name] ++
              [Call.updateInstallPlan ns { p with approved := .found true } true])⟩ := by
  have hr : processNamespace c ns a.Spec.OperatorNames
      = ⟨int32.ofInt 0 + int32.ofInt 1, p.name, some (c.now ns p.name), false, none,
          [Call.listInstallPlans ns] ++ [Call.getSubscription ns owner.Name] ++
            [Call.updateInstallPlan ns { p with approved := .found true } true]⟩ := by
    rw [processNamespace_of_listing c ns _ [p] hlist, processInstallPlans_cons,
      processInstallPlans_nil,
      processInstallPlan_match c ns _ p v rest owner sub happ hallow hcsv howner hname hget
        hstart hset hupd]
  unfold passState
  rw [reconcileNamespaces_cons, reconcileNamespaces_nil]
  unfold reconcileNamespace
  rw [hr]
  simp [hpname]

/-! ## Requests the loop leaves alone -/

/-- C3: a request whose `spec.approved` is true changes nothing in the loop of
`processNamespace`: the iteration returns the loop variables as they were (no
update, no Subscription lookup, no count), and the whole result of
`processNamespace`, its calls included, is the one for the listing without
that request. -/
theorem approved_request_is_skipped (c : Client) (ns : String) (ops : List String)
    (pre post : List InstallPlan) (p : InstallPlan) (h : p.approved = .found true) :
    (∀ acc, processInstallPlan c ns ops acc p = acc) ∧
      processNamespace (withListing c ns (pre ++ p :: post)) ns ops
        = processNamespace (withListing c ns (pre ++ post)) ns ops := by
  have hskip := processInstallPlan_approved c ns ops p h
  refine ⟨hskip, ?_⟩
  rw [processNamespace_withListing, processNamespace_withListing]
  exact processInstallPlans_drop c ns ops pre post p hskip _

/-- Witness of C3: an approved plan between two pending ones, in a cluster where
every update succeeds. -/
theorem approved_request_is_skipped_witness :
    (examplePlan "install-b" (.found true)).approved = .found true ∧
      processNamespace
          (withListing (exampleClient (examplePolicy true [] 0) [] (.ok ⟨.absent⟩) [])
            "operators"
            ([examplePlan "install-a" .absent] ++
              examplePlan "install-b" (.found true) :: [examplePlan "install-c" (.found false)]))
          "operators" []
        = processNamespace
          (withListing (exampleClient (examplePolicy true [] 0) [] (.ok ⟨.absent⟩) [])
            "operators"
            ([examplePlan "install-a" .absent] ++ [examplePlan "install-c" (.found false)]))
          "operators" [] :=
  ⟨rfl, (approved_request_is_skipped _ "operators" [] _ _ _ rfl).2⟩

/-- C4: with a non-empty allow-list, a request none of whose CSV names equals an
entry or has an entry as a prefix changes nothing in the loop of
`processNamespace`, whatever the client answers for its Subscription: the
iteration returns the loop variables as they were (no update, no count), and
the whole result of `processNamespace`, its calls included, is the one for the
listing without that request. -/
theorem unlisted_operator_is_never_approved (c : Client) (ns : String) (ops : List String)
    (pre post : List InstallPlan) (p : InstallPlan) (hne : ops ≠ [])
    (hno : ∀ n ∈ csvNames p, ∀ a ∈ ops, n ≠ a ∧ ¬ a.data <+: n.data) :
    (∀ acc, processInstallPlan c ns ops acc p = acc) ∧
      processNamespace (withListing c ns (pre ++ p :: post)) ns ops
        = processNamespace (withListing c ns (pre ++ post)) ns ops := by
  have hskip := processInstallPlan_notAllowed c ns ops p hne
    (isOperatorAllowed_eq_false _ ops hne hno)
  refine ⟨hskip, ?_⟩
  rw [processNamespace_withListing, processNamespace_withListing]
  exact processInstallPlans_drop c ns ops pre post p hskip _

/-- Witness of C4: the allow-list names another operator, and the Subscription
pins exactly the version of the request. -/
theorem unlisted_operator_is_never_approved_witness :
    (["other-operator"] : List String) ≠ [] ∧
      processNamespace
          (withListing
            (exampleClient (examplePolicy true ["other-operator"] 0) []
              (.ok ⟨.found "op.v1.2.0"⟩) [])
            "operators" ([] ++ examplePlan "install-a" (.found false) :: []))
          "operators" ["other-operator"]
        = processNamespace
          (withListing
            (exampleClient (examplePolicy true ["other-operator"] 0) []
              (.ok ⟨.found "op.v1.2.0"⟩) [])
            "operators" ([] ++ []))
          "operators" ["other-operator"] :=
  ⟨by decide,
    (unlisted_operator_is_never_approved _ "operators" ["other-operator"] [] []
      (examplePlan "install-a" (.found false)) (by decide) (by decide)).2⟩

/-! ## Failures on one request -/

/-- C9: a failure on one request (its approved field cannot be read, or it
evaluated to Approve and setting the field or the update failed) does not
stop the loop of `processNamespace`: the call returns no error, the iteration
on that request leaves the count, the last approved name and time and the
mismatch flag as they were, and the values returned for the listing are those
returned for the listing without the failed request. -/
theorem failed_request_is_isolated (c : Client) (ns : String) (ops : List String)
    (pre post : List InstallPlan) (p : InstallPlan)
    (hfail : p.approved = .typeError ∨
      ((itemOutcome c ns ops p).1 = .decided .Approve ∧
        (p.setApprovedErr = true ∨
          c.updateInstallPlan ns { p with approved := .found true } ≠ none))) :
    (processNamespace (withListing c ns (pre ++ p :: post)) ns ops).err = none ∧
    (∀ acc,
      (processInstallPlan c ns ops acc p).approvedCount = acc.approvedCount ∧
      (processInstallPlan c ns ops acc p).lastApprovedPlan = acc.lastApprovedPlan ∧
      (processInstallPlan c ns ops acc p).lastApprovedTime = acc.lastApprovedTime ∧
      (processInstallPlan c ns ops acc p).foundNonMatching = acc.foundNonMatching) ∧
    (processNamespace (withListing c ns (pre ++ p :: post)) ns ops).approvedCount
      = (processNamespace (withListing c ns (pre ++ post)) ns ops).approvedCount ∧
    (processNamespace (withListing c ns (pre ++ p :: post)) ns ops).lastApprovedPlan
      = (processNamespace (withListing c ns (pre ++ post)) ns ops).lastApprovedPlan ∧
    (processNamespace (withListing c ns (pre ++ p :: post)) ns ops).lastApprovedTime
      = (processNamespace (withListing c ns (pre ++ post)) ns ops).lastApprovedTime ∧
    (processNamespace (withListing c ns (pre ++ p :: post)) ns ops).foundNonMatching
      = (processNamespace (withListing c ns (pre ++ post)) ns ops).foundNonMatching := by
  obtain ⟨he1, he2⟩ := itemEffect_of_failure c ns ops p hfail
  have hstep : ∀ acc,
      (processInstallPlan c ns ops acc p).approvedCount = acc.approvedCount ∧
      (processInstallPlan c ns ops acc p).lastApprovedPlan = acc.lastApprovedPlan ∧
      (processInstallPlan c ns ops acc p).lastApprovedTime = acc.lastApprovedTime ∧
      (processInstallPlan c ns ops acc p).foundNonMatching = acc.foundNonMatching := by
    intro acc
    simp [processInstallPlan_eq, applyEffect, he1, he2]
  have herr : ∀ acc, (processInstallPlan c ns ops acc p).err = acc.err := by
    intro acc
    simp [processInstallPlan_eq, applyEffect]
  rw [processNamespace_withListing, processNamespace_withListing]
  refine ⟨?_, hstep, ?_⟩
  · rw [processInstallPlans_err]
  · have key := processInstallPlans_congr
      (fun r : NamespaceResult =>
        (r.approvedCount, r.lastApprovedPlan, r.lastApprovedTime, r.foundNonMatching, r.err))
      c ns ops (processInstallPlan_returned_congr c ns ops) post
      (processInstallPlan c ns ops
        (processInstallPlans c ns ops
          ⟨int32.ofInt 0, "", none, false, none, [Call.listInstallPlans ns]⟩ pre) p)
      (processInstallPlans c ns ops
          ⟨int32.ofInt 0, "", none, false, none, [Call.listInstallPlans ns]⟩ pre)
      (by
        obtain ⟨h1, h2, h3, h4⟩ := hstep (processInstallPlans c ns ops
          ⟨int32.ofInt 0, "", none, false, none, [Call.listInstallPlans ns]⟩ pre)
        simp only [h1, h2, h3, h4, herr])
    simp only [Prod.mk.injEq] at key
    rw [processInstallPlans_append, processInstallPlans_cons, processInstallPlans_append]
    exact ⟨key.1, key.2.1, key.2.2.1, key.2.2.2.1⟩

/-- Witness of C9: the update of the second of three pending plans is refused. -/
theorem failed_request_is_isolated_witness :
    (itemOutcome (exampleClient (examplePolicy true [] 0) [] (.ok ⟨.absent⟩) ["install-b"])
        "operators" [] (examplePlan "install-b" .absent)).1 = .decided .Approve ∧
    (processNamespace
        (withListing (exampleClient (examplePolicy true [] 0) [] (.ok ⟨.absent⟩) ["install-b"])
          "operators"
          ([examplePlan "install-a" .absent] ++
            examplePlan "install-b" .absent :: [examplePlan "install-c" (.found false)]))
        "operators" []).approvedCount
      = (processNamespace
        (withListing (exampleClient (examplePolicy true [] 0) [] (.ok ⟨.absent⟩) ["install-b"])
          "operators"
          ([examplePlan "install-a" .absent] ++ [examplePlan "install-c" (.found false)]))
        "operators" []).approvedCount :=
  ⟨by decide,
    (failed_request_is_isolated
      (exampleClient (examplePolicy true [] 0) [] (.ok ⟨.absent⟩) ["install-b"])
      "operators" [] [examplePlan "install-a" .absent] [examplePlan "install-c" (.found false)]
      (examplePlan "install-b" .absent)
      (Or.inr ⟨by decide, Or.inr (by decide)⟩)).2.2.1⟩

/-! ## A disabled policy -/

/-- C6: for a policy with `autoApprove = false`, `Reconcile` makes one client
call, the read of the policy object (no list call, no update of an install
plan, no status update), leaves the stored status as it was, and returns an
empty result (no requeue, no delay) and no error. -/
theorem disabled_policy_is_inert (c : Client) (req : NamespacedName)
    (approver : InstallPlanApprover) (hget : c.getApprover req = .ok approver)
    (hoff : approver.Spec.AutoApprove = false) :
    (Reconcile c req).calls = [Call.getApprover req] ∧
    (Reconcile c req).status = some approver.Status ∧
    (Reconcile c req).result = { Requeue := false, RequeueAfter := 0 } ∧
    (Reconcile c req).err = none := by
  unfold Reconcile
  rw [hget]
  simp [hoff]

/-- Witness of C6: a disabled policy over a namespace with a pending plan whose
Subscription pins its version. -/
theorem disabled_policy_is_inert_witness :
    (Reconcile
        (exampleClient (examplePolicy false [] 41) [examplePlan "install-a" (.found false)]
          (.ok ⟨.found "op.v1.2.0"⟩) [])
        exampleRequest).calls = [Call.getApprover exampleRequest] ∧
    (Reconcile
        (exampleClient (examplePolicy false [] 41) [examplePlan "install-a" (.found false)]
          (.ok ⟨.found "op.v1.2.0"⟩) [])
        exampleRequest).status = some (examplePolicy false [] 41).Status ∧
    (Reconcile
        (exampleClient (examplePolicy false [] 41) [examplePlan "install-a" (.found false)]
          (.ok ⟨.found "op.v1.2.0"⟩) [])
        exampleRequest).result = { Requeue := false, RequeueAfter := 0 } ∧
    (Reconcile
        (exampleClient (examplePolicy false [] 41) [examplePlan "install-a" (.found false)]
          (.ok ⟨.found "op.v1.2.0"⟩) [])
        exampleRequest).err = none :=
  disabled_policy_is_inert _ exampleRequest (examplePolicy false [] 41) rfl rfl

/-! ## The requeue delay -/

/-- C1: for a pass of an existing policy with `autoApprove = true` whose
namespaces were resolved, `Reconcile` returns `RequeueAfter` = 1 minute exactly
when no processed namespace (one whose `processNamespace` returned no error)
reported a mismatch and no plan was approved; 3 minutes exactly when a
processed namespace reported a mismatch and no plan was approved; and no delay
when at least one plan was approved.  The pass is one in which fewer than 2^31
install plans are approved: the total of a pass is an `int32` that starts at 0
in every call, and no listing holds that many install plans. -/
theorem requeue_delay_without_overflow (c : Client) (req : NamespacedName)
    (a : InstallPlanApprover) (nss : List String) (cs : List Call)
    (hget : c.getApprover req = .ok a) (hauto : a.Spec.AutoApprove = true)
    (hres : resolveNamespaces c a = (.ok nss, cs))
    (hno : approvals (Reconcile c req).calls < 2147483648) :
    ((Reconcile c req).result.RequeueAfter = 1 * Minute ↔
      (¬ ∃ ns ∈ nss, (processNamespace c ns a.Spec.OperatorNames).err = none ∧
          (processNamespace c ns a.Spec.OperatorNames).foundNonMatching = true) ∧
        approvals (Reconcile c req).calls = 0) ∧
    ((Reconcile c req).result.RequeueAfter = 3 * Minute ↔
      (∃ ns ∈ nss, (processNamespace c ns a.Spec.OperatorNames).err = none ∧
          (processNamespace c ns a.Spec.OperatorNames).foundNonMatching = true) ∧
        approvals (Reconcile c req).calls = 0) ∧
    (0 < approvals (Reconcile c req).calls → (Reconcile c req).result.RequeueAfter = 0) := by
  have hinv := passState_count c req a _ cs nss hres
  have hflag := passState_flag c req a cs nss
  obtain ⟨m1, m2, m3⟩ := Minute_facts
  by_cases hcount : (passState c req a cs nss).approvedCount.val > 0
  · have hpos : 0 < approvals (passState c req a cs nss).calls := by
      rw [hinv] at hcount
      exact wrapInt32_pos_of_nat _ hcount
    have key : (Reconcile c req).result.RequeueAfter = 0 ∧
        approvals (Reconcile c req).calls = approvals (passState c req a cs nss).calls := by
      cases hupd : c.updateStatus (updatedApprover a (passState c req a cs nss)) with
      | none =>
        rw [Reconcile_stored c req a nss cs hget hauto hres hcount hupd]
        exact ⟨rfl, approvals_snoc_updateStatus _ _ _⟩
      | some e =>
        rw [Reconcile_refused c req a nss cs e hget hauto hres hcount hupd]
        exact ⟨rfl, approvals_snoc_updateStatus _ _ _⟩
    rw [key.1, key.2]
    refine ⟨⟨fun h => absurd h m1, fun h => ?_⟩, ⟨fun h => absurd h m2, fun h => ?_⟩, fun _ => rfl⟩
    · omega
    · omega
  · rw [Reconcile_idle c req a nss cs hget hauto hres hcount] at hno ⊢
    have hno2 : approvals (passState c req a cs nss).calls < 2147483648 := hno
    have hzero : approvals (passState c req a cs nss).calls = 0 := by
      rw [hinv, wrapInt32_of_range _ (by omega) (by omega)] at hcount
      omega
    rw [hzero]
    by_cases hf : (passState c req a cs nss).foundNonMatchingPlans = true
    · have hex := hflag.mp hf
      rw [if_pos hf]
      refine ⟨⟨fun h => absurd h.symm m3, fun h => absurd hex h.1⟩, ⟨fun _ => ⟨hex, rfl⟩, fun _ => rfl⟩,
        fun h => absurd h (by omega)⟩
    · have hex : ¬ ∃ ns ∈ nss, (processNamespace c ns a.Spec.OperatorNames).err = none ∧
          (processNamespace c ns a.Spec.OperatorNames).foundNonMatching = true :=
        fun h => hf (hflag.mpr h)
      rw [if_neg hf]
      refine ⟨⟨fun _ => ⟨hex, rfl⟩, fun _ => rfl⟩, ⟨fun h => absurd h m3, fun h => absurd h.1 hex⟩,
        fun h => absurd h (by omega)⟩

/-- Witness of C1: one namespace with one pending plan for `op.v1.2.0` whose
Subscription pins `op.v1.3.0`. -/
theorem requeue_delay_without_overflow_witness :
    approvals (Reconcile
        (exampleClient (examplePolicy true [] 0) [examplePlan "install-a" (.found false)]
          (.ok ⟨.found "op.v1.3.0"⟩) [])
        exampleRequest).calls < 2147483648 ∧
    (Reconcile
        (exampleClient (examplePolicy true [] 0) [examplePlan "install-a" (.found false)]
          (.ok ⟨.found "op.v1.3.0"⟩) [])
        exampleRequest).result.RequeueAfter = 3 * Minute :=
  ⟨by decide,
    (requeue_delay_without_overflow
      (exampleClient (examplePolicy true [] 0) [examplePlan "install-a" (.found false)]
        (.ok ⟨.found "op.v1.3.0"⟩) [])
      exampleRequest (examplePolicy true [] 0) ["operators"] [] rfl rfl rfl
      (by decide)).2.1.mpr ⟨⟨"operators", by decide, by decide, by decide⟩, by decide⟩⟩

/-! ## The approved count -/

/-- C7, as amended: for a pass of an existing policy, if the previous
`approvedCount` plus the number of install plans approved in the pass does
not exceed 2147483647 (the largest `int32`), then the `approvedCount` stored
after `Reconcile` is at least the previous one. -/
theorem approvedCount_monotone_without_overflow (c : Client) (req : NamespacedName)
    (a : InstallPlanApprover) (st : InstallPlanApproverStatus)
    (hget : c.getApprover req = .ok a)
    (hst : (Reconcile c req).status = some st)
    (hno : a.Status.ApprovedCount.val + approvals (Reconcile c req).calls ≤ 2147483647) :
    a.Status.ApprovedCount.val ≤ st.ApprovedCount.val := by
  have same : some a.Status = some st → a.Status.ApprovedCount.val ≤ st.ApprovedCount.val := by
    intro h
    rw [← Option.some.inj h]
  cases hauto : a.Spec.AutoApprove with
  | false =>
    rw [Reconcile_disabled c req a hget hauto] at hst
    exact same hst
  | true =>
    rcases hres : resolveNamespaces c a with ⟨r, cs⟩
    cases r with
    | error e =>
      rw [Reconcile_unresolved c req a e cs hget hauto hres] at hst
      exact same hst
    | ok nss =>
      have hinv := passState_count c req a _ cs nss hres
      by_cases hcount : (passState c req a cs nss).approvedCount.val > 0
      · cases hupd : c.updateStatus (updatedApprover a (passState c req a cs nss)) with
        | some e =>
          rw [Reconcile_refused c req a nss cs e hget hauto hres hcount hupd] at hst
          exact same hst
        | none =>
          rw [Reconcile_stored c req a nss cs hget hauto hres hcount hupd] at hst hno
          have hno2 : a.Status.ApprovedCount.val
              + approvals (passState c req a cs nss).calls ≤ 2147483647 := by
            have := approvals_snoc_updateStatus (passState c req a cs nss).calls
              (updatedApprover a (passState c req a cs nss)) true
            simp only [this] at hno
            exact hno
          have hst2 : (updatedApprover a (passState c req a cs nss)).Status = st :=
            Option.some.inj hst
          rw [← hst2]
          have hval : (updatedApprover a (passState c req a cs nss)).Status.ApprovedCount.val
              = wrapInt32 (a.Status.ApprovedCount.val
                  + (passState c req a cs nss).approvedCount.val) := rfl
          rw [hval]
          have hle := wrapInt32_le_self (approvals (passState c req a cs nss).calls)
            (Int.natCast_nonneg _)
          rw [← hinv] at hle
          have hlo := a.Status.ApprovedCount.property.1
          rw [wrapInt32_of_range _ (by omega) (by omega)]
          omega
      · rw [Reconcile_idle c req a nss cs hget hauto hres hcount] at hst
        exact same hst

/-- Witness of C7: a previous count of 41 and one approval give 42. -/
theorem approvedCount_monotone_without_overflow_witness :
    (Reconcile
        (exampleClient (examplePolicy true [] 41) [examplePlan "install-a" (.found false)]
          (.ok ⟨.found "op.v1.2.0"⟩) [])
        exampleRequest).status
      = some ⟨int32.ofInt 42, "operators/install-a", some 1700000000⟩ ∧
    (examplePolicy true [] 41).Status.ApprovedCount.val ≤ (int32.ofInt 42).val :=
  ⟨by decide,
    approvedCount_monotone_without_overflow
      (exampleClient (examplePolicy true [] 41) [examplePlan "install-a" (.found false)]
        (.ok ⟨.found "op.v1.2.0"⟩) [])
      exampleRequest (examplePolicy true [] 41)
      ⟨int32.ofInt 42, "operators/install-a", some 1700000000⟩ rfl (by decide) (by decide)⟩

/-- Counterexample to C7 as stated: with a previous `approvedCount` of
2147483647, one approval makes `Reconcile` store the count -2147483648, which
is smaller. -/
theorem approvedCount_decreases_on_overflow :
    (examplePolicy true [] 2147483647).Status.ApprovedCount.val = 2147483647 ∧
    (Reconcile
        (exampleClient (examplePolicy true [] 2147483647)
          [examplePlan "install-a" (.found false)] (.ok ⟨.found "op.v1.2.0"⟩) [])
        exampleRequest).status
      = some ⟨int32.ofInt (-2147483648), "operators/install-a", some 1700000000⟩ ∧
    (int32.ofInt (-2147483648)).val < (examplePolicy true [] 2147483647).Status.ApprovedCount.val := by
  decide

/-- C8, as amended: for a pass of an enabled policy whose namespaces were
resolved.  First, if at least one install plan was approved, no `int32`
overflows (the number of approvals, and the previous `approvedCount` plus that
number, are at most 2147483647) and the listed install plans have non-empty
names, then `Reconcile` ends with a status update whose `approvedCount` is the
previous count plus the sum of the counts returned by `processNamespace` over
the namespaces that returned no error, and whose `lastApprovedPlan` is
`namespace/name` of the last install plan approved in the pass; when the
update succeeds that status is the stored one.  Second, in a pass over one
namespace that lists one request, not yet approved, with a non-empty name,
that passes the allow-list and whose owning Subscription pins its primary
version, if the field can be set, the client accepts the update and the
previous count is below 2147483647, the calls of `Reconcile` are the read of
the policy, the resolution of the namespaces, the listing, the Subscription
lookup, the update of the request with `approved = true` and one status
update, whose `approvedCount` is the previous count plus 1, whose
`lastApprovedPlan` is `namespace/name` of the request and whose
`lastApprovedTime` is the time of the approval. -/
theorem status_after_approvals (c : Client) (req : NamespacedName)
    (a : InstallPlanApprover) (nss : List String) (cs : List Call)
    (hget : c.getApprover req = .ok a) (hauto : a.Spec.AutoApprove = true)
    (hres : resolveNamespaces c a = (.ok nss, cs)) :
    ((∀ ns ∈ nss, ∀ items, c.listInstallPlans ns = .ok items → ∀ p ∈ items, p.name ≠ "") →
      0 < approvals (Reconcile c req).calls →
      approvals (Reconcile c req).calls ≤ 2147483647 →
      a.Status.ApprovedCount.val + approvals (Reconcile c req).calls ≤ 2147483647 →
      ∃ (written : InstallPlanApprover) (ok : Bool) (ns name : String),
        (Reconcile c req).calls.getLast? = some (Call.updateStatus written ok) ∧
        (ok = true → (Reconcile c req).status = some written.Status) ∧
        written.Status.ApprovedCount.val
          = a.Status.ApprovedCount.val + returnedCounts c a.Spec.OperatorNames nss ∧
        lastApproval (Reconcile c req).calls = some (ns, name) ∧
        written.Status.LastApprovedPlan = ns ++ "/" ++ name) ∧
    (∀ (ns : String) (p : InstallPlan) (v : String) (rest : List String)
        (owner : OwnerReference) (sub : Subscription),
      nss = [ns] →
      c.listInstallPlans ns = .ok [p] →
      (p.approved = .absent ∨ p.approved = .found false) →
      p.name ≠ "" →
      (a.Spec.OperatorNames = [] ∨
        ∃ n ∈ csvNames p, ∃ e ∈ a.Spec.OperatorNames, n = e ∨ e.data <+: n.data) →
      p.clusterServiceVersionNames = .found (v :: rest) →
      p.ownerReferences.find? (fun o => o.Kind == "Subscription") = some owner →
      owner.Name ≠ "" →
      c.getSubscription ns owner.Name = .ok sub →
      sub.startingCSV = .found v →
      p.setApprovedErr = false →
      c.updateInstallPlan ns { p with approved := .found true } = none →
      a.Status.ApprovedCount.val < 2147483647 →
      ∃ (written : InstallPlanApprover) (ok : Bool),
        (Reconcile c req).calls
          = (Call.getApprover req :: cs) ++
            [Call.listInstallPlans ns, Call.getSubscription ns owner.Name,
              Call.updateInstallPlan ns { p with approved := .found true } true,
              Call.updateStatus written ok] ∧
        (ok = true → (Reconcile c req).status = some written.Status) ∧
        written.Status.ApprovedCount.val = a.Status.ApprovedCount.val + 1 ∧
        written.Status.LastApprovedPlan = ns ++ "/" ++ p.name ∧
        written.Status.LastApprovedTime = some (c.now ns p.name)) := by
  constructor
  · intro hnames hpos hmax hno
    have hinv := passState_count c req a _ cs nss hres
    have hsum := passState_approvals c req a _ cs nss hres
    have hlast := passState_lastApproval c req a _ cs nss hres hnames
    have hlo := a.Status.ApprovedCount.property.1
    by_cases hcount : (passState c req a cs nss).approvedCount.val > 0
    · have key : ∃ ok : Bool,
          (Reconcile c req).calls = (passState c req a cs nss).calls
            ++ [Call.updateStatus (updatedApprover a (passState c req a cs nss)) ok] ∧
          (ok = true → (Reconcile c req).status
            = some (updatedApprover a (passState c req a cs nss)).Status) := by
        cases hupd : c.updateStatus (updatedApprover a (passState c req a cs nss)) with
        | none =>
          rw [Reconcile_stored c req a nss cs hget hauto hres hcount hupd]
          exact ⟨true, rfl, fun _ => rfl⟩
        | some e =>
          rw [Reconcile_refused c req a nss cs e hget hauto hres hcount hupd]
          exact ⟨false, rfl, fun h => Bool.noConfusion h⟩
      obtain ⟨ok, hcalls, hstatus⟩ := key
      rw [hcalls, approvals_snoc_updateStatus] at hpos hmax hno
      obtain ⟨⟨n, name⟩, hr⟩ := lastApproval_of_approvals_pos _ hpos
      refine ⟨updatedApprover a (passState c req a cs nss), ok, n, name, ?_, hstatus, ?_, ?_, ?_⟩
      · rw [hcalls]
        simp
      · have hval : (updatedApprover a (passState c req a cs nss)).Status.ApprovedCount.val
            = wrapInt32 (a.Status.ApprovedCount.val
                + (passState c req a cs nss).approvedCount.val) := rfl
        rw [hval, hinv, returnedCounts_eq c _ nss (by omega), ← hsum]
        rw [wrapInt32_of_range (approvals (passState c req a cs nss).calls : Int) (by omega)
          (by omega)]
        exact wrapInt32_of_range _ (by omega) (by omega)
      · rw [hcalls, lastApproval_snoc_updateStatus]
        exact hr
      · exact hlast n name hr
    · exfalso
      rw [Reconcile_idle c req a nss cs hget hauto hres hcount] at hpos hmax
      have hpos2 : 0 < approvals (passState c req a cs nss).calls := hpos
      have hmax2 : approvals (passState c req a cs nss).calls ≤ 2147483647 := hmax
      rw [hinv, wrapInt32_of_range _ (by omega) (by omega)] at hcount
      omega
  · intro ns p v rest owner sub hone hlist happ hpname hallow hcsv howner hname hgetS hstart
      hset hupdP hprev
    subst hone
    have hst := passState_single_match c req a cs ns p v rest owner sub hlist happ hallow hcsv
      howner hname hgetS hstart hset hupdP hpname
    have hlo := a.Status.ApprovedCount.property.1
    have hone : (int32.ofInt 0 + (int32.ofInt 0 + int32.ofInt 1)).val = 1 := by decide
    have hcount : (passState c req a cs [ns]).approvedCount.val > 0 := by
      rw [hst]
      simp only [hone]
      decide
    have hwritten : (updatedApprover a (passState c req a cs [ns])).Status.ApprovedCount.val
        = a.Status.ApprovedCount.val + 1 := by
      have hval : (updatedApprover a (passState c req a cs [ns])).Status.ApprovedCount.val
          = wrapInt32 (a.Status.ApprovedCount.val
              + (passState c req a cs [ns]).approvedCount.val) := rfl
      rw [hval, hst]
      simp only [hone]
      exact wrapInt32_of_range _ (by omega) (by omega)
    have hplan : (updatedApprover a (passState c req a cs [ns])).Status.LastApprovedPlan
        = ns ++ "/" ++ p.name := by
      rw [hst]; rfl
    have htime : (updatedApprover a (passState c req a cs [ns])).Status.LastApprovedTime
        = some (c.now ns p.name) := by
      rw [hst]; rfl
    have hcalls : (passState c req a cs [ns]).calls
        = (Call.getApprover req :: cs) ++
          [Call.listInstallPlans ns, Call.getSubscription ns owner.Name,
            Call.updateInstallPlan ns { p with approved := .found true } true] := by
      rw [hst]; rfl
    cases hupd : c.updateStatus (updatedApprover a (passState c req a cs [ns])) with
    | none =>
      refine ⟨updatedApprover a (passState c req a cs [ns]), true, ?_, ?_, hwritten, hplan,
        htime⟩
      · rw [Reconcile_stored c req a [ns] cs hget hauto hres hcount hupd]
        simp only [hcalls]
        simp
      · intro _
        rw [Reconcile_stored c req a [ns] cs hget hauto hres hcount hupd]
    | some e =>
      refine ⟨updatedApprover a (passState c req a cs [ns]), false, ?_, ?_, hwritten, hplan,
        htime⟩
      · rw [Reconcile_refused c req a [ns] cs e hget hauto hres hcount hupd]
        simp only [hcalls]
        simp
      · intro h
        exact Bool.noConfusion h

/-- Witness of C8: one namespace with one pending plan for `op.v1.2.0` whose
Subscription pins `op.v1.2.0`, and a previous count of 41: the plan is
approved, the count becomes 42 and the last approved plan
`operators/install-a`. -/
theorem status_after_approvals_witness :
    (Reconcile
        (exampleClient (examplePolicy true [] 41) [examplePlan "install-a" (.found false)]
          (.ok ⟨.found "op.v1.2.0"⟩) [])
        exampleRequest).status
      = some ⟨int32.ofInt 42, "operators/install-a", some 1700000000⟩ ∧
    (∃ (written : InstallPlanApprover) (ok : Bool) (ns name : String),
      (Reconcile
        (exampleClient (examplePolicy true [] 41) [examplePlan "install-a" (.found false)]
          (.ok ⟨.found "op.v1.2.0"⟩) [])
        exampleRequest).calls.getLast? = some (Call.updateStatus written ok) ∧
      (ok = true → (Reconcile
        (exampleClient (examplePolicy true [] 41) [examplePlan "install-a" (.found false)]
          (.ok ⟨.found "op.v1.2.0"⟩) [])
        exampleRequest).status = some written.Status) ∧
      written.Status.ApprovedCount.val
        = (examplePolicy true [] 41).Status.ApprovedCount.val
          + returnedCounts
              (exampleClient (examplePolicy true [] 41) [examplePlan "install-a" (.found false)]
                (.ok ⟨.found "op.v1.2.0"⟩) [])
              (examplePolicy true [] 41).Spec.OperatorNames ["operators"] ∧
      lastApproval (Reconcile
        (exampleClient (examplePolicy true [] 41) [examplePlan "install-a" (.found false)]
          (.ok ⟨.found "op.v1.2.0"⟩) [])
        exampleRequest).calls = some (ns, name) ∧
      written.Status.LastApprovedPlan = ns ++ "/" ++ name) ∧
    (∃ (written : InstallPlanApprover) (ok : Bool),
      (Reconcile
        (exampleClient (examplePolicy true [] 41) [examplePlan "install-a" (.found false)]
          (.ok ⟨.found "op.v1.2.0"⟩) [])
        exampleRequest).calls
        = (Call.getApprover exampleRequest :: []) ++
          [Call.listInstallPlans "operators", Call.getSubscription "operators" "op-sub",
            Call.updateInstallPlan "operators"
              { examplePlan "install-a" (.found false) with approved := .found true } true,
            Call.updateStatus written ok] ∧
      (ok = true → (Reconcile
        (exampleClient (examplePolicy true [] 41) [examplePlan "install-a" (.found false)]
          (.ok ⟨.found "op.v1.2.0"⟩) [])
        exampleRequest).status = some written.Status) ∧
      written.Status.ApprovedCount.val = (examplePolicy true [] 41).Status.ApprovedCount.val + 1 ∧
      written.Status.LastApprovedPlan = "operators" ++ "/" ++ "install-a" ∧
      written.Status.LastApprovedTime = some 1700000000) :=
  (fun T =>
    ⟨by decide,
      T.1
        (by
          intro ns _ items h p hp
          have h2 : [examplePlan "install-a" (.found false)] = items := Except.ok.inj h
          rw [← h2, List.mem_singleton] at hp
          rw [hp]
          decide)
        (by decide) (by decide) (by decide),
      T.2 "operators" (examplePlan "install-a" (.found false)) "op.v1.2.0" []
        ⟨"Subscription", "op-sub"⟩ ⟨.found "op.v1.2.0"⟩ rfl rfl (Or.inr rfl) (by decide)
        (Or.inl rfl) rfl rfl (by decide) rfl rfl rfl rfl (by decide)⟩)
    (status_after_approvals
      (exampleClient (examplePolicy true [] 41) [examplePlan "install-a" (.found false)]
        (.ok ⟨.found "op.v1.2.0"⟩) [])
      exampleRequest (examplePolicy true [] 41) ["operators"] [] rfl rfl rfl)

/-- Counterexample to C8 as stated.  First, with a previous `approvedCount` of
2147483647 and one approval (the sum of the returned counts is 1), the status
stored has the count -2147483648, not the previous count plus 1.  Second, when
the one install plan approved has an empty name, the last approval of the pass
is that plan of `operators`, yet the status stored has an empty
`lastApprovedPlan`, not `operators/`. -/
theorem status_after_approvals_edge_cases :
    ((Reconcile
        (exampleClient (examplePolicy true [] 2147483647)
          [examplePlan "install-a" (.found false)] (.ok ⟨.found "op.v1.2.0"⟩) [])
        exampleRequest).status
      = some ⟨int32.ofInt (-2147483648), "operators/install-a", some 1700000000⟩ ∧
    returnedCounts
        (exampleClient (examplePolicy true [] 2147483647)
          [examplePlan "install-a" (.found false)] (.ok ⟨.found "op.v1.2.0"⟩) [])
        [] ["operators"] = 1 ∧
    (int32.ofInt (-2147483648)).val
      ≠ (examplePolicy true [] 2147483647).Status.ApprovedCount.val + 1) ∧
    ((Reconcile
        (exampleClient (examplePolicy true [] 0) [examplePlan "" (.found false)]
          (.ok ⟨.found "op.v1.2.0"⟩) [])
        exampleRequest).status = some ⟨int32.ofInt 1, "", none⟩ ∧
    lastApproval (Reconcile
        (exampleClient (examplePolicy true [] 0) [examplePlan "" (.found false)]
          (.ok ⟨.found "op.v1.2.0"⟩) [])
        exampleRequest).calls = some ("operators", "")) := by
  decide

/-! ## A pinned version that differs -/

/-- C5, as amended: let a request of a listed namespace be not yet approved (its
approved field is absent or false), pass the allow-list (the list is empty, or
one of its CSV names equals an entry or has an entry as a prefix), have a
primary version `v`, and let its first owner reference of kind Subscription
have a non-empty name under which the lookup returns a Subscription whose
`startingCSV` is non-empty and differs from `v`.  Then the iteration on that
request makes the Subscription lookup and no other call (no update), leaves
the count and the last approved name as they were and sets the mismatch flag;
`processNamespace` returns no error, a true mismatch flag, and the count and
last approved name of the listing without that request; and a pass of an
enabled policy with that allow-list over that namespace in which nothing is
approved returns `RequeueAfter` = 3 minutes. -/
theorem version_mismatch_blocks_approval (c : Client) (ns : String) (ops : List String)
    (pre post : List InstallPlan) (p : InstallPlan) (v : String) (rest : List String)
    (owner : OwnerReference) (sub : Subscription) (s : String)
    (happ : p.approved = .absent ∨ p.approved = .found false)
    (hallow : ops = [] ∨ ∃ n ∈ csvNames p, ∃ a ∈ ops, n = a ∨ a.data <+: n.data)
    (hcsv : p.clusterServiceVersionNames = .found (v :: rest))
    (howner : p.ownerReferences.find? (fun o => o.Kind == "Subscription") = some owner)
    (hname : owner.Name ≠ "")
    (hget : c.getSubscription ns owner.Name = .ok sub)
    (hstart : sub.startingCSV = .found s) (hs : s ≠ "") (hdiff : s ≠ v) :
    (∀ acc,
      (processInstallPlan c ns ops acc p).calls
        = acc.calls ++ [Call.getSubscription ns owner.Name] ∧
      (processInstallPlan c ns ops acc p).approvedCount = acc.approvedCount ∧
      (processInstallPlan c ns ops acc p).lastApprovedPlan = acc.lastApprovedPlan ∧
      (processInstallPlan c ns ops acc p).foundNonMatching = true) ∧
    (processNamespace (withListing c ns (pre ++ p :: post)) ns ops).err = none ∧
    (processNamespace (withListing c ns (pre ++ p :: post)) ns ops).foundNonMatching = true ∧
    (processNamespace (withListing c ns (pre ++ p :: post)) ns ops).approvedCount
      = (processNamespace (withListing c ns (pre ++ post)) ns ops).approvedCount ∧
    (processNamespace (withListing c ns (pre ++ p :: post)) ns ops).lastApprovedPlan
      = (processNamespace (withListing c ns (pre ++ post)) ns ops).lastApprovedPlan ∧
    (∀ (req : NamespacedName) (a : InstallPlanApprover) (nss : List String) (cs : List Call),
      (withListing c ns (pre ++ p :: post)).getApprover req = .ok a →
      a.Spec.AutoApprove = true → a.Spec.OperatorNames = ops →
      resolveNamespaces (withListing c ns (pre ++ p :: post)) a = (.ok nss, cs) →
      ns ∈ nss →
      approvals (Reconcile (withListing c ns (pre ++ p :: post)) req).calls = 0 →
      (Reconcile (withListing c ns (pre ++ p :: post)) req).result.RequeueAfter
        = 3 * Minute) := by
  have ho := itemOutcome_mismatch c ns ops p v rest owner sub s happ hallow hcsv howner hname
    hget hstart hs hdiff
  have hstep : ∀ acc, processInstallPlan c ns ops acc p
      = { acc with foundNonMatching := true,
                   calls := acc.calls ++ [Call.getSubscription ns owner.Name] } := by
    intro acc
    unfold processInstallPlan
    rw [ho]
  have herr : (processNamespace (withListing c ns (pre ++ p :: post)) ns ops).err = none := by
    rw [processNamespace_withListing, processInstallPlans_err]
  have hflag : (processNamespace (withListing c ns (pre ++ p :: post)) ns ops).foundNonMatching
      = true := by
    rw [processNamespace_withListing, processInstallPlans_append, processInstallPlans_cons]
    apply processInstallPlans_flag_mono
    rw [hstep]
  refine ⟨?_, herr, hflag, ?_, ?_, ?_⟩
  · intro acc
    rw [hstep]
    exact ⟨rfl, rfl, rfl, rfl⟩
  · rw [processNamespace_withListing, processNamespace_withListing, processInstallPlans_append,
      processInstallPlans_cons, processInstallPlans_append]
    have key := processInstallPlans_congr
      (fun r : NamespaceResult =>
        (r.approvedCount, r.lastApprovedPlan, r.lastApprovedTime, r.err))
      c ns ops (processInstallPlan_counted_congr c ns ops) post
      (processInstallPlan c ns ops
        (processInstallPlans c ns ops
          ⟨int32.ofInt 0, "", none, false, none, [Call.listInstallPlans ns]⟩ pre) p)
      (processInstallPlans c ns ops
          ⟨int32.ofInt 0, "", none, false, none, [Call.listInstallPlans ns]⟩ pre)
      (by rw [hstep])
    simp only [Prod.mk.injEq] at key
    exact key.1
  · rw [processNamespace_withListing, processNamespace_withListing, processInstallPlans_append,
      processInstallPlans_cons, processInstallPlans_append]
    have key := processInstallPlans_congr
      (fun r : NamespaceResult =>
        (r.approvedCount, r.lastApprovedPlan, r.lastApprovedTime, r.err))
      c ns ops (processInstallPlan_counted_congr c ns ops) post
      (processInstallPlan c ns ops
        (processInstallPlans c ns ops
          ⟨int32.ofInt 0, "", none, false, none, [Call.listInstallPlans ns]⟩ pre) p)
      (processInstallPlans c ns ops
          ⟨int32.ofInt 0, "", none, false, none, [Call.listInstallPlans ns]⟩ pre)
      (by rw [hstep])
    simp only [Prod.mk.injEq] at key
    exact key.2.1
  · intro req a nss cs hgetA hauto hops hres hmem hzero
    rw [Reconcile_without_approvals _ req a nss cs hgetA hauto hres hzero]
    have hf : (passState (withListing c ns (pre ++ p :: post)) req a cs nss).foundNonMatchingPlans
        = true := by
      rw [passState_flag]
      refine ⟨ns, hmem, ?_, ?_⟩
      · rw [hops]; exact herr
      · rw [hops]; exact hflag
    rw [if_pos hf]

/-- Witness of C5: one namespace with one pending plan for `op.v1.2.0` whose
Subscription `op-sub` pins `op.v1.3.0`: the plan stays unapproved, the
mismatch flag is true and the pass requeues after 3 minutes. -/
theorem version_mismatch_blocks_approval_witness :
    (examplePlan "install-a" (.found false)).clusterServiceVersionNames
      = .found ("op.v1.2.0" :: []) ∧
    (processNamespace
        (withListing (exampleClient (examplePolicy true [] 0) [] (.ok ⟨.found "op.v1.3.0"⟩) [])
          "operators" ([] ++ examplePlan "install-a" (.found false) :: []))
        "operators" []).foundNonMatching = true ∧
    (processNamespace
        (withListing (exampleClient (examplePolicy true [] 0) [] (.ok ⟨.found "op.v1.3.0"⟩) [])
          "operators" ([] ++ examplePlan "install-a" (.found false) :: []))
        "operators" []).approvedCount
      = (processNamespace
        (withListing (exampleClient (examplePolicy true [] 0) [] (.ok ⟨.found "op.v1.3.0"⟩) [])
          "operators" ([] ++ []))
        "operators" []).approvedCount ∧
    (Reconcile
        (withListing (exampleClient (examplePolicy true [] 0) [] (.ok ⟨.found "op.v1.3.0"⟩) [])
          "operators" ([] ++ examplePlan "install-a" (.found false) :: []))
        exampleRequest).result.RequeueAfter = 3 * Minute :=
  (fun T => ⟨rfl, T.2.2.1, T.2.2.2.1,
      T.2.2.2.2.2 exampleRequest (examplePolicy true [] 0) ["operators"] [] rfl rfl rfl rfl
        (by decide) (by decide)⟩)
    (version_mismatch_blocks_approval
      (exampleClient (examplePolicy true [] 0) [] (.ok ⟨.found "op.v1.3.0"⟩) [])
      "operators" [] [] [] (examplePlan "install-a" (.found false)) "op.v1.2.0" []
      ⟨"Subscription", "op-sub"⟩ ⟨.found "op.v1.3.0"⟩ "op.v1.3.0"
      (Or.inr rfl) (Or.inl rfl) rfl rfl (by decide) rfl rfl (by decide) (by decide))

/-- Counterexample to C5 as stated.  In each case the request is for
`op.v1.2.0` and its owning Subscription pins `op.v1.3.0`.  A request that is
already approved, a request that the allow-list excludes, and a request whose
approved field cannot be read are skipped before the version check: the
mismatch flag returned is false and the pass requeues after 1 minute.  A
request whose Subscription owner reference has an empty name is treated as
having no owner: it is approved. -/
theorem version_mismatch_not_reported :
    ((processNamespace
        (exampleClient (examplePolicy true [] 0) [examplePlan "install-a" (.found true)]
          (.ok ⟨.found "op.v1.3.0"⟩) [])
        "operators" []).foundNonMatching = false ∧
      (Reconcile
        (exampleClient (examplePolicy true [] 0) [examplePlan "install-a" (.found true)]
          (.ok ⟨.found "op.v1.3.0"⟩) [])
        exampleRequest).result.RequeueAfter = 1 * Minute) ∧
    ((processNamespace
        (exampleClient (examplePolicy true ["other-operator"] 0)
          [examplePlan "install-a" (.found false)] (.ok ⟨.found "op.v1.3.0"⟩) [])
        "operators" ["other-operator"]).foundNonMatching = false ∧
      (Reconcile
        (exampleClient (examplePolicy true ["other-operator"] 0)
          [examplePlan "install-a" (.found false)] (.ok ⟨.found "op.v1.3.0"⟩) [])
        exampleRequest).result.RequeueAfter = 1 * Minute) ∧
    ((processNamespace
        (exampleClient (examplePolicy true [] 0) [examplePlan "install-a" .typeError]
          (.ok ⟨.found "op.v1.3.0"⟩) [])
        "operators" []).foundNonMatching = false ∧
      (Reconcile
        (exampleClient (examplePolicy true [] 0) [examplePlan "install-a" .typeError]
          (.ok ⟨.found "op.v1.3.0"⟩) [])
        exampleRequest).result.RequeueAfter = 1 * Minute) ∧
    ((processNamespace
        (exampleClient (examplePolicy true [] 0)
          [{ examplePlan "install-a" (.found false) with
              ownerReferences := [⟨"Subscription", ""⟩] }]
          (.ok ⟨.found "op.v1.3.0"⟩) [])
        "operators" []).foundNonMatching = false ∧
      (processNamespace
        (exampleClient (examplePolicy true [] 0)
          [{ examplePlan "install-a" (.found false) with
              ownerReferences := [⟨"Subscription", ""⟩] }]
          (.ok ⟨.found "op.v1.3.0"⟩) [])
        "operators" []).approvedCount.val = 1) := by
  decide

/-- C2, as amended: for every request whose approved field can be read and
whose first owner reference of kind Subscription, if any, has a non-empty
name, the decision taken by the loop body of `processNamespace` is the one of
the evaluator of the specification, the Subscription being looked up by
namespace and name through the client; and a request whose approved field
cannot be read gets no decision: the iteration returns the loop variables as
they were. -/
theorem decision_refines_evaluate (c : Client) (ns : String) (ops : List String)
    (p : InstallPlan) (hread : p.approved ≠ .typeError)
    (hname : ∀ o, p.ownerReferences.find? (fun o => o.Kind == "Subscription") = some o →
      o.Name ≠ "") :
    (itemOutcome c ns ops p).1 = .decided (evaluate p (c.getSubscription ns) ops) ∧
    (itemOutcome c ns ops { p with approved := .typeError }).1 = .fieldError ∧
    (∀ acc, processInstallPlan c ns ops acc { p with approved := .typeError } = acc) := by
  refine ⟨?_, rfl, fun acc => processInstallPlan_fieldError c ns ops _ rfl acc⟩
  have hspec := matchesSubscriptionVersion_spec c ns p hname
  unfold evaluate
  rw [← hspec]
  unfold itemOutcome
  cases happ : p.approved with
  | typeError => exact absurd happ hread
  | found b =>
    cases b with
    | true => simp
    | false =>
      simp only
      by_cases hne : ops = []
      · subst hne
        simp
        cases (matchesSubscriptionVersion c p ns).1 <;> simp
      · have hl : 0 < ops.length := List.length_pos.mpr hne
        rw [isOperatorAllowed_eq_any _ ops hne]
        unfold csvNames
        simp only [hl, decide_True, Bool.true_and, ne_eq, hne, not_false_eq_true, true_and]
        cases hany : (p.clusterServiceVersionNames.valueOr []).any
            (fun n => ops.any fun entry => matchesEntry n entry) with
        | true =>
          simp
          cases (matchesSubscriptionVersion c p ns).1 <;> simp
        | false => simp
  | absent =>
    simp only
    by_cases hne : ops = []
    · subst hne
      simp
      cases (matchesSubscriptionVersion c p ns).1 <;> simp
    · have hl : 0 < ops.length := List.length_pos.mpr hne
      rw [isOperatorAllowed_eq_any _ ops hne]
      unfold csvNames
      simp only [hl, decide_True, Bool.true_and, ne_eq, hne, not_false_eq_true, true_and]
      cases hany : (p.clusterServiceVersionNames.valueOr []).any
          (fun n => ops.any fun entry => matchesEntry n entry) with
      | true =>
        simp
        cases (matchesSubscriptionVersion c p ns).1 <;> simp
      | false => simp

/-- Witness of C2: a pending plan for `op.v1.2.0` whose Subscription `op-sub`
pins `op.v1.3.0`: both sides decide VersionMismatch. -/
theorem decision_refines_evaluate_witness :
    (examplePlan "install-a" (.found false)).approved ≠ .typeError ∧
    evaluate (examplePlan "install-a" (.found false))
        ((exampleClient (examplePolicy true [] 0) [] (.ok ⟨.found "op.v1.3.0"⟩) []).getSubscription
          "operators") []
      = .VersionMismatch ∧
    (itemOutcome (exampleClient (examplePolicy true [] 0) [] (.ok ⟨.found "op.v1.3.0"⟩) [])
        "operators" [] (examplePlan "install-a" (.found false))).1
      = .decided (evaluate (examplePlan "install-a" (.found false))
          ((exampleClient (examplePolicy true [] 0) [] (.ok ⟨.found "op.v1.3.0"⟩) []).getSubscription
            "operators") []) :=
  ⟨by decide, by decide,
    (decision_refines_evaluate
      (exampleClient (examplePolicy true [] 0) [] (.ok ⟨.found "op.v1.3.0"⟩) [])
      "operators" [] (examplePlan "install-a" (.found false)) (by decide)
      (by
        intro o h
        have h2 : (⟨"Subscription", "op-sub"⟩ : OwnerReference) = o := Option.some.inj h
        rw [← h2]
        decide)).1⟩

/-- Counterexample to C2 as stated.  First, a request whose approved field
cannot be read, with no CSV name and an empty allow-list: the evaluator of the
specification says Approve, the loop body takes no decision and
`processNamespace` approves nothing although every update would succeed.
Second, a pending request for `op.v1.2.0` whose Subscription owner reference
has an empty name, where the lookup returns a Subscription that pins
`op.v1.3.0`: the evaluator says VersionMismatch, the loop body decides Approve
and the request is approved. -/
theorem decision_differs_from_evaluate :
    (evaluate ⟨"install-a", .typeError, .absent, [], false⟩
        ((exampleClient (examplePolicy true [] 0) [] (.ok ⟨.absent⟩) []).getSubscription
          "operators") []
      = .Approve ∧
    (itemOutcome (exampleClient (examplePolicy true [] 0) [] (.ok ⟨.absent⟩) [])
        "operators" [] ⟨"install-a", .typeError, .absent, [], false⟩).1 = .fieldError ∧
    (processNamespace
        (exampleClient (examplePolicy true [] 0)
          [⟨"install-a", .typeError, .absent, [], false⟩] (.ok ⟨.absent⟩) [])
        "operators" []).approvedCount.val = 0 ∧
    (processNamespace
        (exampleClient (examplePolicy true [] 0)
          [⟨"install-a", .typeError, .absent, [], false⟩] (.ok ⟨.absent⟩) [])
        "operators" []).calls = [Call.listInstallPlans "operators"]) ∧
    (evaluate ⟨"install-a", .found false, .found ["op.v1.2.0"], [⟨"Subscription", ""⟩], false⟩
        ((exampleClient (examplePolicy true [] 0) [] (.ok ⟨.found "op.v1.3.0"⟩) []).getSubscription
          "operators") []
      = .VersionMismatch ∧
    (itemOutcome (exampleClient (examplePolicy true [] 0) [] (.ok ⟨.found "op.v1.3.0"⟩) [])
        "operators" []
        ⟨"install-a", .found false, .found ["op.v1.2.0"], [⟨"Subscription", ""⟩], false⟩).1
      = .decided .Approve ∧
    (processNamespace
        (exampleClient (examplePolicy true [] 0)
          [⟨"install-a", .found false, .found ["op.v1.2.0"], [⟨"Subscription", ""⟩], false⟩]
          (.ok ⟨.found "op.v1.3.0"⟩) [])
        "operators" []).approvedCount.val = 1) := by
  decide

/-! ## The test behind the allow-list -/

/-- C10: `containsSubstring` is a prefix test, not a substring test: `operator`
occurs inside `my-operator.v1.0.0`, yet `containsSubstring` returns false on
them, and so `isOperatorAllowed` rejects the name. -/
theorem containsSubstring_misses_inner_occurrence :
    "operator".data <:+: "my-operator.v1.0.0".data ∧
    containsSubstring "my-operator.v1.0.0" "operator" = false ∧
    isOperatorAllowed ["my-operator.v1.0.0"] ["operator"] = false :=
  ⟨⟨"my-".data, ".v1.0.0".data, rfl⟩, by decide, by decide⟩

end Controller
